import Mathlib

/-!
Verification of selfcontrol: the hosts-file blocker, the persisted state and the two actors.

A shallow embedding of `internal/blocker/blocker.go`, `internal/state/state.go`,
`internal/timer/timer.go`, the ticker loop of `cmd/selfcontrol-daemon/main.go` and the
expiry paths of `internal/ui/ui.go`.

Modelling conventions.

* A Go `string` is a `List Char`: the model covers valid UTF-8 text, one `Char` per code
  point.  All the byte-level operations used by the program (`\n` splitting, `\r`
  dropping, ASCII prefixes and suffixes) act the same way on code points.
* `/etc/hosts` is a value of `HostsFile`: its content plus two flags saying whether the
  process may read and write it.  An operation returns the Go `error` (`none` is `nil`)
  together with the file afterwards.
* `bufio.Scanner` is modelled with its default line splitter and its default token limit
  (`MaxScanTokenSize`): a line that does not fit makes `Scan` stop and `Err` non-nil.
* A `time.Time` is the instant it denotes, in nanoseconds since the Unix epoch, and a
  `time.Duration` a number of nanoseconds; `Time.Sub` saturates at the two ends of the
  64-bit range of a `Duration` as in Go.  The clock is an input: the methods of `AppState`
  take one argument for every `time.Now()` they evaluate, in the order of evaluation.
* The state file is a value of `Store`: what `state.Load` finds there, and whether the
  directory can be made and the file written.  Of the JSON encoding only its one failure
  is modelled: a time whose year is outside 0..9999 cannot be marshalled.
-/

namespace SelfControl

/-- Go `string` (valid UTF-8 text, one `Char` per code point). -/
abbrev GoString := List Char

/-! ## Package `unicode` -/

namespace unicode

/-- Go `unicode.IsSpace`: the Latin-1 cases spelled out in the library, then the
`White_Space` range table. -/
def IsSpace (r : Char) : Bool :=
  r = '\t' || r = '\n' || r = Char.ofNat 0x0b || r = Char.ofNat 0x0c || r = '\r' || r = ' '
    || r = Char.ofNat 0x85 || r = Char.ofNat 0xa0 || r = Char.ofNat 0x1680
    || (decide (0x2000 ≤ r.toNat) && decide (r.toNat ≤ 0x200a))
    || r = Char.ofNat 0x2028 || r = Char.ofNat 0x2029
    || r = Char.ofNat 0x202f || r = Char.ofNat 0x205f || r = Char.ofNat 0x3000

end unicode

/-! ## Package `strings` -/

namespace strings

/-- Go `strings.TrimSpace`: leading, then trailing, white space removed. -/
def TrimSpace (s : GoString) : GoString :=
  (s.dropWhile unicode.IsSpace).rdropWhile unicode.IsSpace

/-- Go `strings.Trim`: leading and trailing code points contained in `cutset` removed. -/
def Trim (s cutset : GoString) : GoString :=
  (s.dropWhile (fun c => decide (c ∈ cutset))).rdropWhile (fun c => decide (c ∈ cutset))

/-- Go `strings.HasPrefix`. -/
def HasPrefix (s p : GoString) : Bool := p.isPrefixOf s

/-- Go `strings.HasSuffix`. -/
def HasSuffix (s p : GoString) : Bool := p.isSuffixOf s

/-- Go `strings.TrimPrefix`: `s` without the leading `p`, or `s` itself. -/
def TrimPrefix (s p : GoString) : GoString :=
  if HasPrefix s p then s.drop p.length else s

/-- Go `strings.TrimSuffix`: `s` without the trailing `p`, or `s` itself. -/
def TrimSuffix (s p : GoString) : GoString :=
  if HasSuffix s p then s.take (s.length - p.length) else s

/-- Go `strings.Contains`: `substr` occurs somewhere in `s`. -/
def Contains : GoString → GoString → Bool
  | [], substr => substr.isEmpty
  | c :: cs, substr => substr.isPrefixOf (c :: cs) || Contains cs substr

/-- Go `strings.ReplaceAll s old new` for a one-character `old`, the only form the program
uses: every occurrence of the character `old` is replaced by `new`. -/
def ReplaceAll (s : GoString) (old : Char) (new : GoString) : GoString :=
  s.flatMap (fun c => if c = old then new else [c])

end strings

/-! ## Package `bufio` -/

namespace bufio

/-- Go `bufio.MaxScanTokenSize`. -/
def MaxScanTokenSize : Nat := 64 * 1024

/-- Number of bytes of the UTF-8 encoding of a string. -/
def byteLen (s : GoString) : Nat := (s.map Char.utf8Size).sum

/-- Go `bufio.dropCR`: one trailing carriage return is dropped. -/
def dropCR (data : GoString) : GoString :=
  if data.getLast? = some '\r' then data.dropLast else data

/-- The raw lines `bufio.ScanLines` cuts the input into, before `dropCR`: `cur` holds the
characters of the line being read.  Every `\n` ends a line; at the end of the input a
non-empty unterminated rest is a final line. -/
def rawLinesAux : GoString → GoString → List GoString
  | cur, [] => if cur = [] then [] else [cur]
  | cur, c :: cs => if c = '\n' then cur :: rawLinesAux [] cs else rawLinesAux (cur ++ [c]) cs

/-- The raw lines of a whole input. -/
def rawLines (data : GoString) : List GoString := rawLinesAux [] data

/-- A raw line can be delivered as a token when it fits the scanner's buffer: with the
default limit the line (and its terminator, or the end-of-file probe) needs fewer than
`MaxScanTokenSize` bytes of content. -/
def fits (line : GoString) : Bool := decide (byteLen line < MaxScanTokenSize)

/-- The tokens successive `Scanner.Scan` / `Scanner.Text` calls deliver: scanning stops at
the first line that does not fit. -/
def Scanner.tokens (data : GoString) : List GoString :=
  ((rawLines data).takeWhile fits).map dropCR

/-- Go `Scanner.Err` after the scan loop: `true` when scanning stopped on `ErrTooLong`. -/
def Scanner.tooLong (data : GoString) : Bool := !(rawLines data).all fits

end bufio

/-! ## Package `blocker` -/

/-- The errors the blocker returns, one constructor per `fmt.Errorf` site. -/
inductive Error where
  /-- "failed to open hosts file" (`Unblock`). -/
  | openHosts
  /-- "failed to read hosts file" (`scanner.Err` in `Unblock`, `os.ReadFile` elsewhere). -/
  | readHosts
  /-- "failed to write hosts file (are you running with sudo?)". -/
  | writeHosts
  /-- "failed to clear existing blocks", wrapping the error of `Unblock`. -/
  | clearExisting (cause : Error)
  deriving DecidableEq, Repr

/-- The state of `/etc/hosts` as the process sees it. -/
structure HostsFile where
  /-- The bytes of the file. -/
  content : GoString
  /-- Whether `os.Open` and `os.ReadFile` succeed. -/
  readable : Bool
  /-- Whether `os.WriteFile` succeeds. -/
  writable : Bool
  deriving DecidableEq, Repr

namespace blocker

/-- The constant `beginMarker`. -/
def beginMarker : GoString := "# BEGIN SELFCONTROL-TUI".toList

/-- The constant `endMarker`. -/
def endMarker : GoString := "# END SELFCONTROL-TUI".toList

/-- The body of the scan loop of `Unblock`: `inBlockSection` is the loop variable, the
result is what the loop appends to `newContent` for the remaining lines. -/
def unblockLoop : Bool → List GoString → GoString
  | _, [] => []
  | inBlockSection, line :: rest =>
    if strings.TrimSpace line = beginMarker then unblockLoop true rest
    else if strings.TrimSpace line = endMarker then unblockLoop false rest
    else if !inBlockSection then line ++ ['\n'] ++ unblockLoop inBlockSection rest
    else unblockLoop inBlockSection rest

/-- Go `Unblock`: removes the blocking rules from the hosts file. -/
def Unblock (f : HostsFile) : Option Error × HostsFile :=
  if !f.readable then (some Error.openHosts, f)
  else
    let newContent := unblockLoop false (bufio.Scanner.tokens f.content)
    if bufio.Scanner.tooLong f.content then (some Error.readHosts, f)
    else if !f.writable then (some Error.writeHosts, f)
    else (none, { f with content := newContent })

/-- The list `commonSubdomains` of `expandWildcards`. -/
def commonSubdomains : List GoString :=
  ["m".toList, "mobile".toList, "app".toList, "api".toList, "mail".toList, "login".toList,
    "account".toList]

/-- The list `commonTLDs` of `expandWildcards`. -/
def commonTLDs : List GoString := ["com".toList, "net".toList, "org".toList, "io".toList]

/-- The protocol stripping and trimming at the top of the loop body of `expandWildcards`. -/
def cleanURL (url : GoString) : GoString :=
  strings.TrimSpace
    (strings.TrimPrefix (strings.TrimPrefix url "http://".toList) "https://".toList)

/-- One iteration of the loop of `expandWildcards`: the hostnames appended to `result` for
one entry of `urls`. -/
def expandURL (url0 : GoString) : List GoString :=
  let url := cleanURL url0
  if strings.Contains url "*".toList then
    let base := strings.Trim (strings.ReplaceAll url '*' []) ".".toList
    if base = [] then []
    else
      let variations := [base, "www.".toList ++ base]
      let variations :=
        if strings.HasPrefix url "*".toList then
          variations ++ commonSubdomains.map (fun sub => sub ++ ".".toList ++ base)
        else variations
      let variations :=
        if strings.HasSuffix url ".*".toList then
          let baseDomain := strings.TrimSuffix base ".".toList
          variations ++ commonTLDs.flatMap (fun tld =>
            [baseDomain ++ ".".toList ++ tld, "www.".toList ++ baseDomain ++ ".".toList ++ tld])
        else variations
      variations
  else
    if !strings.HasPrefix url "www.".toList then [url, "www.".toList ++ url] else [url]

/-- Go `expandWildcards`: converts wildcard patterns to hostnames. -/
def expandWildcards : List GoString → List GoString
  | [] => []
  | url :: rest => expandURL url ++ expandWildcards rest

/-- The loop of `Block` writing the two rules of every host to `blockingRules`. -/
def rulesLoop : List GoString → GoString
  | [] => []
  | host :: rest =>
    ("127.0.0.1 ".toList ++ host ++ ['\n']) ++ ("::1 ".toList ++ host ++ ['\n']) ++ rulesLoop rest

/-- The text `Block` builds in `blockingRules`. -/
def blockingRules (hosts : List GoString) : GoString :=
  ['\n'] ++ beginMarker ++ ['\n'] ++ rulesLoop hosts ++ endMarker ++ ['\n']

/-- Go `Block`: adds the blocking rules to the hosts file. -/
def Block (urls : List GoString) (f : HostsFile) : Option Error × HostsFile :=
  match Unblock f with
  | (some err, f1) => (some (Error.clearExisting err), f1)
  | (none, f1) =>
    if !f1.readable then (some Error.readHosts, f1)
    else
      let content := f1.content
      let hosts := expandWildcards urls
      let newContent := content ++ blockingRules hosts
      if !f1.writable then (some Error.writeHosts, f1)
      else (none, { f1 with content := newContent })

/-- Go `IsBlocked`: whether the begin marker occurs in the hosts file. -/
def IsBlocked (f : HostsFile) : Bool × Option Error :=
  if !f.readable then (false, some Error.readHosts)
  else (strings.Contains f.content beginMarker, none)

end blocker

/-! ## Package `state` -/

/-- Go `time.Time`: the instant, in nanoseconds since the Unix epoch. -/
abbrev Time := Int

/-- Go `state.Session`. -/
structure Session where
  /-- Field `EndTime`. -/
  EndTime : Time
  /-- Field `Duration`, the label. -/
  Duration : GoString
  /-- Field `StartTime`. -/
  StartTime : Time
  deriving DecidableEq, Repr

/-- Go `state.AppState`; a nil `ActiveSession` is `none`. -/
structure AppState where
  /-- Field `URLs`. -/
  URLs : List GoString
  /-- Field `ActiveSession`. -/
  ActiveSession : Option Session
  deriving DecidableEq, Repr

namespace AppState

/-- The duplicate search of `AddURL`: `true` when the loop returns early. -/
def addURLFound (url : GoString) : List GoString → Bool
  | [] => false
  | u :: rest => if u = url then true else addURLFound url rest

/-- Go `AppState.AddURL`. -/
def AddURL (s : AppState) (url : GoString) : AppState :=
  if addURLFound url s.URLs then s else { s with URLs := s.URLs ++ [url] }

/-- The first loop of `RemoveURLs`: the `map[int]bool` filled from `indices`; a key that
was never stored reads as `false`. -/
def toRemoveMap : List Int → Int → Bool
  | [], _ => false
  | idx :: rest, k => if k = idx then true else toRemoveMap rest k

/-- The second loop of `RemoveURLs`, from position `i` on. -/
def removeLoop (toRemove : Int → Bool) : Nat → List GoString → List GoString
  | _, [] => []
  | i, url :: rest =>
    if !toRemove (i : Int) then url :: removeLoop toRemove (i + 1) rest
    else removeLoop toRemove (i + 1) rest

/-- Go `AppState.RemoveURLs`. -/
def RemoveURLs (s : AppState) (indices : List Int) : AppState :=
  { s with URLs := removeLoop (toRemoveMap indices) 0 s.URLs }

end AppState

/-! ## Package `time` -/

namespace time

/-- Go `time.Duration`, a number of nanoseconds. -/
abbrev Duration := Int

/-- Go `time.Second`. -/
def Second : Duration := 1000000000

/-- Go `time.Minute`. -/
def Minute : Duration := 60 * Second

/-- Go `time.Hour`. -/
def Hour : Duration := 60 * Minute

/-- Go `Time.Before`: the instant `t` is before the instant `u`. -/
def Before (t u : Time) : Bool := decide (t < u)

/-- Go `Time.Add`. -/
def Add (t : Time) (d : Duration) : Time := t + d

/-- Go `maxDuration`, the largest `Duration` (`1<<63 - 1`). -/
def maxDuration : Duration := 9223372036854775807

/-- Go `minDuration`, the smallest `Duration` (`-1 << 63`). -/
def minDuration : Duration := -9223372036854775808

/-- Go `Time.Sub`, the duration from `u` to `t`: the largest or the smallest `Duration`
when the difference does not fit. -/
def Sub (t u : Time) : Duration :=
  if maxDuration < t - u then maxDuration
  else if t - u < minDuration then minDuration
  else t - u

/-- Go `time.Until` when the clock reads `now`. -/
def Until (t now : Time) : Duration := Sub t now

end time

namespace AppState

/-- Go `AppState.StartSession`: `now` is the clock reading of the `time.Now()` stored in
`StartTime`, `now2` the reading of the `time.Now()` evaluated next, for `EndTime`. -/
def StartSession (s : AppState) (duration : time.Duration) (durationStr : GoString)
    (now now2 : Time) : AppState :=
  { s with
    ActiveSession := some
      { StartTime := now, EndTime := time.Add now2 duration, Duration := durationStr } }

/-- Go `AppState.EndSession`. -/
def EndSession (s : AppState) : AppState := { s with ActiveSession := none }

/-- Go `AppState.IsSessionActive` when the clock reads `now`. -/
def IsSessionActive (s : AppState) (now : Time) : Bool :=
  match s.ActiveSession with
  | none => false
  | some session => time.Before now session.EndTime

/-- Go `AppState.TimeRemaining`: `now` is the clock reading inside `IsSessionActive`, `now2`
the reading `time.Until` takes afterwards; past the test a session exists, so the `none`
case of the dereference is never taken. -/
def TimeRemaining (s : AppState) (now now2 : Time) : time.Duration :=
  if !s.IsSessionActive now then 0
  else
    match s.ActiveSession with
    | none => 0
    | some session => time.Until session.EndTime now2

end AppState

/-! ## Package `timer` -/

namespace timer

set_option linter.dupNamespace false in
/-- Go `timer.Duration`, a selectable blocking duration. -/
structure Duration where
  /-- Field `Label`. -/
  Label : GoString
  /-- Field `Duration`. -/
  Duration : time.Duration
  deriving DecidableEq, Repr

/-- Go `timer.PredefinedDurations`. -/
def PredefinedDurations : List Duration :=
  [ { Label := "30 seconds".toList, Duration := 30 * time.Second },
    { Label := "5 minutes".toList, Duration := 5 * time.Minute },
    { Label := "15 minutes".toList, Duration := 15 * time.Minute },
    { Label := "1 hour".toList, Duration := 1 * time.Hour },
    { Label := "4 hours".toList, Duration := 4 * time.Hour },
    { Label := "6 hours".toList, Duration := 6 * time.Hour },
    { Label := "8 hours".toList, Duration := 8 * time.Hour } ]

end timer

/-! ## The persisted record -/

/-- What `state.Load` finds at `statePath`. -/
inductive StateFile where
  /-- No file: `os.Stat` reports that it does not exist. -/
  | absent
  /-- A file `os.ReadFile` cannot read. -/
  | unreadable
  /-- A file `json.Unmarshal` rejects. -/
  | malformed
  /-- A file holding the JSON encoding of a state. -/
  | record (st : AppState)
  deriving DecidableEq, Repr

/-- The configuration directory and the state file as the process sees them. -/
structure Store where
  /-- Whether `os.MkdirAll` on the configuration directory succeeds. -/
  dirOk : Bool
  /-- The state file. -/
  file : StateFile
  /-- Whether `os.WriteFile` on the state file succeeds. -/
  writable : Bool
  deriving DecidableEq, Repr

/-- The errors `state.Load` and `state.Save` return. -/
inductive StateError where
  /-- The error of `os.MkdirAll`. -/
  | mkdir
  /-- The error of `os.ReadFile`. -/
  | read
  /-- The error of `json.Unmarshal`. -/
  | parse
  /-- The error of `os.WriteFile`. -/
  | write
  /-- The error of `json.MarshalIndent`. -/
  | marshal
  deriving DecidableEq, Repr

namespace state

/-- Whether `Time.MarshalJSON` accepts the time: its year, taken in UTC, is within
0..9999. -/
def marshalsTime (t : Time) : Bool :=
  decide (-62167219200000000000 ≤ t) && decide (t < 253402300800000000000)

/-- Whether `json.MarshalIndent` succeeds on the state: the only values it can refuse are
the two times of a session. -/
def marshals (st : AppState) : Bool :=
  match st.ActiveSession with
  | none => true
  | some session => marshalsTime session.EndTime && marshalsTime session.StartTime

/-- Go `state.Load`: the state read from disk, or the error. -/
def Load (d : Store) : Except StateError AppState :=
  if !d.dirOk then Except.error StateError.mkdir
  else
    match d.file with
    | StateFile.absent => Except.ok { URLs := [], ActiveSession := none }
    | StateFile.unreadable => Except.error StateError.read
    | StateFile.malformed => Except.error StateError.parse
    | StateFile.record st => Except.ok st

/-- Go `state.Save`: the error (`none` is `nil`) and the store afterwards. -/
def Save (st : AppState) (d : Store) : Option StateError × Store :=
  if !marshals st then (some StateError.marshal, d)
  else if !d.writable then (some StateError.write, d)
  else (none, { d with file := StateFile.record st })

end state

/-! ## The two actors -/

/-- The files both actors work on: `/etc/hosts` and the persisted record. -/
structure World where
  /-- The hosts file. -/
  hosts : HostsFile
  /-- The configuration directory and state file. -/
  store : Store
  deriving DecidableEq, Repr

/-- What an actor does that is visible from outside, in the order it does it: the calls to
`blocker.Unblock` and `state.Save` with their results, and the lines the daemon prints. -/
inductive Event where
  /-- A call of `blocker.Unblock` and the error it returned. -/
  | unblock (err : Option Error)
  /-- A call of `state.Save` with its argument and the error it returned. -/
  | save (st : AppState) (err : Option StateError)
  /-- "Error loading state". -/
  | printLoadError (err : StateError)
  /-- "Session expired at ..., unblocking...". -/
  | printExpired (endTime : Time)
  /-- "Error unblocking". -/
  | printUnblockError (err : Error)
  /-- "Error saving state". -/
  | printSaveError (err : StateError)
  /-- "Successfully unblocked websites". -/
  | printSuccess
  deriving DecidableEq, Repr

namespace daemon

/-- One iteration of the ticker loop of the daemon's `main`, the clock reading `now`: the
world afterwards and what the iteration did.  The test `st.ActiveSession != nil &&
!st.IsSessionActive()` is the `some` case followed by the activity test. -/
def tick (w : World) (now : Time) : World × List Event :=
  match state.Load w.store with
  | Except.error err => (w, [Event.printLoadError err])
  | Except.ok st =>
    match st.ActiveSession with
    | none => (w, [])
    | some session =>
      if !st.IsSessionActive now then
        match blocker.Unblock w.hosts with
        | (some err, hosts) =>
          ({ w with hosts := hosts },
            [Event.printExpired session.EndTime, Event.unblock (some err),
              Event.printUnblockError err])
        | (none, hosts) =>
          let st := st.EndSession
          match state.Save st w.store with
          | (some err, store) =>
            ({ hosts := hosts, store := store },
              [Event.printExpired session.EndTime, Event.unblock none,
                Event.save st (some err), Event.printSaveError err, Event.printSuccess])
          | (none, store) =>
            ({ hosts := hosts, store := store },
              [Event.printExpired session.EndTime, Event.unblock none, Event.save st none,
                Event.printSuccess])
      else (w, [])

end daemon

namespace ui

/-- Go `viewMode`. -/
inductive viewMode where
  /-- Constant `viewMain`. -/
  | viewMain
  /-- Constant `viewAddURL`. -/
  | viewAddURL
  /-- Constant `viewDelete`. -/
  | viewDelete
  /-- Constant `viewSelectDuration`. -/
  | viewSelectDuration
  deriving DecidableEq, Repr

/-- The errors stored in the field `err` of the model by the expiry paths. -/
inductive ModelError where
  /-- "session expired but failed to unblock" (`New`). -/
  | expiredUnblock (cause : Error)
  /-- "failed to unblock after timer expiry" (`Update`). -/
  | tickUnblock (cause : Error)
  deriving DecidableEq, Repr

/-- Go `ui.Model`, without the text-input widget; `state` is the state the pointer field
points to. -/
structure Model where
  /-- Field `state`. -/
  state : AppState
  /-- Field `mode`. -/
  mode : viewMode
  /-- Field `cursor`. -/
  cursor : Int
  /-- Field `deleteSelected`, as the list of its keys. -/
  deleteSelected : List Int
  /-- Field `err`. -/
  err : Option ModelError
  /-- Field `quitting`. -/
  quitting : Bool
  /-- Field `lastTickTime`. -/
  lastTickTime : Time
  /-- Field `permissionError`. -/
  permissionError : Bool
  deriving DecidableEq, Repr

/-- Go `ui.New`, the clock reading `now`: the model, or the load error, with the world
afterwards and the calls made. -/
def New (w : World) (now : Time) : Except StateError Model × World × List Event :=
  match state.Load w.store with
  | Except.error err => (Except.error err, w, [])
  | Except.ok st =>
    let m : Model :=
      { state := st, mode := viewMode.viewMain, cursor := 0, deleteSelected := [],
        err := none, quitting := false, lastTickTime := now, permissionError := false }
    if st.ActiveSession.isSome && !st.IsSessionActive now then
      let r := blocker.Unblock w.hosts
      let m : Model :=
        match r.1 with
        | some err =>
          { m with permissionError := true, err := some (ModelError.expiredUnblock err) }
        | none => m
      let st := st.EndSession
      let sv := state.Save st w.store
      (Except.ok { m with state := st }, { hosts := r.2, store := sv.2 },
        [Event.unblock r.1, Event.save st sv.1])
    else (Except.ok m, w, [])

/-- The `tickMsg` case of Go `Model.Update`, the message carrying the time `t` and the
clock reading `now`: the model and the world afterwards, and the calls made. -/
def UpdateTick (m : Model) (t : Time) (w : World) (now : Time) : Model × World × List Event :=
  let m := { m with lastTickTime := t }
  if m.state.ActiveSession.isSome && !m.state.IsSessionActive now then
    match blocker.Unblock w.hosts with
    | (some err, hosts) =>
      ({ m with permissionError := true, err := some (ModelError.tickUnblock err) },
        { w with hosts := hosts }, [Event.unblock (some err)])
    | (none, hosts) =>
      let st := m.state.EndSession
      let sv := state.Save st w.store
      ({ m with state := st }, { hosts := hosts, store := sv.2 },
        [Event.unblock none, Event.save st sv.1])
  else (m, w, [])

end ui

/-! ## Specification-side definitions

The text format and the line-level reading of the specification, and the list form of
the lines the scan loop writes. -/

section SpecDefs

open strings bufio blocker

/-- Lines written one after the other, each followed by a newline. -/
def joinLines (ls : List GoString) : GoString := ls.flatMap (fun l => l ++ ['\n'])

/-- The lines the scan loop of `Unblock` writes, as a list. -/
def keptLines : Bool → List GoString → List GoString
  | _, [] => []
  | b, line :: rest =>
    if TrimSpace line = beginMarker then keptLines true rest
    else if TrimSpace line = endMarker then keptLines false rest
    else if !b then line :: keptLines b rest
    else keptLines b rest

/-- A line is one of the two marker lines. -/
def isMarker (l : GoString) : Prop := TrimSpace l = beginMarker ∨ TrimSpace l = endMarker

instance isMarker.decidable (l : GoString) : Decidable (isMarker l) := by
  unfold isMarker
  infer_instance

/-- The two rule lines `Block` writes for every host, as a list of lines. -/
def ruleLines (hosts : List GoString) : List GoString :=
  hosts.flatMap (fun h => ["127.0.0.1 ".toList ++ h, "::1 ".toList ++ h])

/-- The lines the specification has `Unblock` write back, the flag saying whether the scan
is inside a region: a region runs from a begin marker line through the next end marker
line (so it exists only when an end marker line follows), its lines are dropped, and the
scan goes on after it; every other line is kept. -/
def specKeep : Bool → List GoString → List GoString
  | _, [] => []
  | true, l :: rest =>
    if TrimSpace l = endMarker then specKeep false rest else specKeep true rest
  | false, l :: rest =>
    if TrimSpace l = beginMarker ∧ (rest.any fun x => decide (TrimSpace x = endMarker)) = true
    then specKeep true rest
    else l :: specKeep false rest

/-- The marker lines are properly paired, the flag saying whether a region is open: every
end marker line closes an open region and every region is closed by a later end marker
line. -/
def paired : Bool → List GoString → Bool
  | b, [] => !b
  | true, l :: rest =>
    if TrimSpace l = endMarker then paired false rest else paired true rest
  | false, l :: rest =>
    if TrimSpace l = beginMarker then paired true rest
    else if TrimSpace l = endMarker then false
    else paired false rest

/-- One marker pair of a resource together with the lines in front of it: the lines
outside, the begin marker line, the lines inside the region, the end marker line. -/
structure Segment where
  /-- The lines before the region. -/
  outside : List GoString
  /-- The begin marker line. -/
  beginLine : GoString
  /-- The lines between the two marker lines. -/
  inside : List GoString
  /-- The end marker line. -/
  endLine : GoString

/-- The lines of a segment, in order. -/
def Segment.lines (s : Segment) : List GoString :=
  s.outside ++ s.beginLine :: (s.inside ++ [s.endLine])

/-- The segment is cut where it says: no marker line outside, a begin marker line, no end
marker line inside (so that the end marker line is the next one), an end marker line. -/
def Segment.wellFormed (s : Segment) : Prop :=
  (∀ l ∈ s.outside, ¬ isMarker l) ∧ TrimSpace s.beginLine = beginMarker ∧
    (∀ l ∈ s.inside, TrimSpace l ≠ endMarker) ∧ TrimSpace s.endLine = endMarker

instance Segment.wellFormed.decidable (s : Segment) : Decidable s.wellFormed := by
  unfold Segment.wellFormed
  infer_instance

/-- The marker-delimited region of the specification's text format for a list of
hostnames: the begin marker line, an IPv4 and an IPv6 loopback entry per hostname, the end
marker line. -/
def specRegion (hosts : List GoString) : GoString :=
  beginMarker ++ ['\n']
    ++ hosts.flatMap (fun h => "127.0.0.1 ".toList ++ h ++ ['\n'] ++ ("::1 ".toList ++ h ++ ['\n']))
    ++ endMarker ++ ['\n']

/-- The expansion of a cleaned wildcard pattern `u` in the words of the specification:
`base`, `www.` + `base`, the curated subdomains when `u` starts with `*`, the curated
top-level domains when `u` ends with `.*`; nothing when `base` is empty. -/
def specWildcard (u : GoString) : List GoString :=
  let base := Trim (u.filter (fun c => c != '*')) ['.']
  if base = [] then []
  else
    [base, "www.".toList ++ base]
      ++ (if u.head? = some '*' then
            ["m", "mobile", "app", "api", "mail", "login", "account"].map
              (fun s => s.toList ++ ['.'] ++ base)
          else [])
      ++ (if ".*".toList <:+ u then
            ["com", "net", "org", "io"].flatMap
              (fun tld => [base ++ ['.'] ++ tld.toList, "www.".toList ++ base ++ ['.'] ++ tld.toList])
          else [])

/-- The Session invariant of the specification: the end time is after the start time. -/
def Session.valid (x : Session) : Prop := x.StartTime < x.EndTime

instance Session.valid.decidable (x : Session) : Decidable x.valid := by
  unfold Session.valid
  infer_instance

/-- An example world one tick after the expiry of a five-minute session started at 1000 on
the block list `example.com`: the session is on record, its region is in the hosts file,
and the hosts file can be written or not. -/
def expiredWorld (hostsWritable : Bool) : World :=
  { hosts :=
      ⟨"127.0.0.1 localhost\n\n# BEGIN SELFCONTROL-TUI\n127.0.0.1 example.com\n::1 example.com\n127.0.0.1 www.example.com\n::1 www.example.com\n# END SELFCONTROL-TUI\n".toList,
        true, hostsWritable⟩,
    store :=
      ⟨true,
        StateFile.record
          ⟨["example.com".toList], some ⟨300000001000, "5 minutes".toList, 1000⟩⟩,
        true⟩ }

/-- The clock reading of the example: ten seconds after the end of the session. -/
def expiredNow : Time := 310000001000

/-- The value of `inBlockSection` after the scan loop of `Unblock`, started with the value
`b`, has read the lines. -/
def scanState : Bool → List GoString → Bool
  | b, [] => b
  | b, line :: rest =>
    if TrimSpace line = beginMarker then scanState true rest
    else if TrimSpace line = endMarker then scanState false rest
    else scanState b rest

/-- A region is open at the end of the lines: their last marker line is a begin marker
line. -/
def regionOpen (ls : List GoString) : Bool :=
  match (ls.filter (fun l => decide (isMarker l))).getLast? with
  | some l => decide (TrimSpace l = beginMarker)
  | none => false

end SpecDefs

/-! ## Auxiliary facts -/

section Lemmas

open strings bufio blocker AppState

theorem contains_singleton (c : Char) (s : GoString) : Contains s [c] = true ↔ c ∈ s := by
  induction s with
  | nil => simp [Contains]
  | cons a s ih =>
    simp only [Contains, Bool.or_eq_true, ih, List.mem_cons]
    constructor
    · rintro (h | h)
      · left
        have h2 : [c] <+: a :: s := List.isPrefixOf_iff_prefix.mp h
        obtain ⟨t, ht⟩ := h2
        simp at ht
        exact ht.1
      · right; exact h
    · rintro (h | h)
      · left
        subst h
        exact List.isPrefixOf_iff_prefix.mpr ⟨s, rfl⟩
      · right; exact h

theorem hasPrefix_iff (s p : GoString) : HasPrefix s p = true ↔ p <+: s := by
  unfold HasPrefix
  exact List.isPrefixOf_iff_prefix

theorem hasSuffix_iff (s p : GoString) : HasSuffix s p = true ↔ p <:+ s := by
  unfold HasSuffix
  exact List.isSuffixOf_iff_suffix

theorem rdropWhile_getLast_not (p : Char → Bool) (l : GoString) (a : Char)
    (h : (l.rdropWhile p).getLast? = some a) : p a = false := by
  have hne : l.rdropWhile p ≠ [] := by
    intro h0
    rw [h0] at h
    simp at h
  have := List.rdropWhile_last_not p l hne
  rw [List.getLast?_eq_getLast _ hne] at h
  simp only [Option.some.injEq] at h
  rw [h] at this
  simpa using this

theorem trimSuffix_trim_dot (s : GoString) :
    TrimSuffix (Trim s ".".toList) ".".toList = Trim s ".".toList := by
  unfold TrimSuffix
  split
  · rename_i h
    exfalso
    rw [hasSuffix_iff] at h
    obtain ⟨t, ht⟩ := h
    have hl : (Trim s ".".toList).getLast? = some '.' := by
      rw [← ht]
      simp
    have := rdropWhile_getLast_not _ _ _ hl
    simp at this
  · rfl

theorem expandWildcards_single (url : GoString) : expandWildcards [url] = expandURL url := by
  simp [expandWildcards]

theorem replaceAll_star (s : GoString) : ReplaceAll s '*' [] = s.filter (fun c => c != '*') := by
  unfold ReplaceAll
  induction s with
  | nil => rfl
  | cons a s ih =>
    rw [List.flatMap_cons, ih, List.filter_cons]
    by_cases h : a = '*'
    · simp [h]
    · simp [h]

theorem hasPrefix_star (s : GoString) : HasPrefix s "*".toList = true ↔ s.head? = some '*' := by
  cases s with
  | nil => simp [HasPrefix, List.isPrefixOf]
  | cons a s =>
    rw [hasPrefix_iff]
    constructor
    · rintro ⟨t, ht⟩
      simp at ht
      simp
      exact ht.1.symm
    · intro h
      simp at h
      exact ⟨s, by simp [h]⟩

theorem addURLFound_iff (url : GoString) (l : List GoString) :
    addURLFound url l = true ↔ url ∈ l := by
  induction l with
  | nil => simp [addURLFound]
  | cons u rest ih =>
    unfold addURLFound
    by_cases h : u = url
    · simp [h]
    · have h2 : ¬ url = u := fun e => h e.symm
      simp [h, h2, ih]

theorem toRemoveMap_iff (indices : List Int) (k : Int) :
    toRemoveMap indices k = true ↔ k ∈ indices := by
  induction indices with
  | nil => simp [toRemoveMap]
  | cons idx rest ih =>
    unfold toRemoveMap
    by_cases h : k = idx
    · simp [h]
    · simp [h, ih]

theorem removeLoop_eq (indices : List Int) (l : List GoString) (i : Nat) :
    removeLoop (toRemoveMap indices) i l =
      ((l.enumFrom i).filter (fun x => decide ((x.1 : Int) ∉ indices))).map Prod.snd := by
  induction l generalizing i with
  | nil => simp [removeLoop]
  | cons url rest ih =>
    unfold removeLoop
    rw [List.enumFrom_cons, List.filter_cons, ih (i + 1)]
    by_cases h : (i : Int) ∈ indices
    · have hm : toRemoveMap indices (i : Int) = true := (toRemoveMap_iff _ _).mpr h
      simp [hm, h]
    · have hm : toRemoveMap indices (i : Int) = false := by
        rw [← Bool.not_eq_true, toRemoveMap_iff]; exact h
      simp [hm, h]

theorem joinLines_cons (l : GoString) (ls : List GoString) :
    joinLines (l :: ls) = l ++ '\n' :: joinLines ls := by
  simp [joinLines]

theorem joinLines_append (xs ys : List GoString) :
    joinLines (xs ++ ys) = joinLines xs ++ joinLines ys := by
  simp [joinLines]

theorem unblockLoop_eq (b : Bool) (ls : List GoString) :
    unblockLoop b ls = joinLines (keptLines b ls) := by
  induction ls generalizing b with
  | nil => rfl
  | cons l rest ih =>
    unfold unblockLoop keptLines
    by_cases h1 : TrimSpace l = beginMarker
    · simp only [h1, if_true]; exact ih true
    · by_cases h2 : TrimSpace l = endMarker
      · simp only [h1, h2, if_true, if_false]; exact ih false
      · cases b with
        | true => simp only [h1, h2, if_false, Bool.not_true, Bool.false_eq_true]; exact ih true
        | false =>
          simp only [h1, h2, if_false, Bool.not_false, if_true]
          rw [joinLines_cons, ih false]
          simp

theorem rawLinesAux_append (cur l rest : GoString) (h : '\n' ∉ l) :
    rawLinesAux cur (l ++ '\n' :: rest) = (cur ++ l) :: rawLinesAux [] rest := by
  induction l generalizing cur with
  | nil => simp [rawLinesAux]
  | cons a l ih =>
    have ha : a ≠ '\n' := fun e => h (by simp [e])
    have hl : '\n' ∉ l := fun e => h (by simp [e])
    rw [List.cons_append, rawLinesAux, if_neg ha, ih _ hl]
    simp

theorem rawLines_joinLines_append (ls : List GoString) (rest : GoString)
    (h : ∀ l ∈ ls, '\n' ∉ l) : rawLines (joinLines ls ++ rest) = ls ++ rawLines rest := by
  induction ls with
  | nil => simp [joinLines]
  | cons l ls ih =>
    have hl : '\n' ∉ l := h l (by simp)
    have hls : ∀ x ∈ ls, '\n' ∉ x := fun x hx => h x (by simp [hx])
    rw [joinLines_cons]
    unfold rawLines at ih ⊢
    rw [List.append_assoc, List.cons_append, rawLinesAux_append _ _ _ hl, ih hls]
    simp

theorem rawLines_joinLines (ls : List GoString) (h : ∀ l ∈ ls, '\n' ∉ l) :
    rawLines (joinLines ls) = ls := by
  have := rawLines_joinLines_append ls [] h
  simpa [rawLines, rawLinesAux] using this

theorem rawLinesAux_no_newline (cur data : GoString) (hc : '\n' ∉ cur) :
    ∀ l ∈ rawLinesAux cur data, '\n' ∉ l := by
  induction data generalizing cur with
  | nil =>
    intro l hl
    unfold rawLinesAux at hl
    by_cases h : cur = []
    · simp [h] at hl
    · simp [h] at hl; rw [hl]; exact hc
  | cons c cs ih =>
    intro l hl
    unfold rawLinesAux at hl
    by_cases h : c = '\n'
    · simp only [h, if_true, List.mem_cons] at hl
      rcases hl with hl | hl
      · rw [hl]; exact hc
      · exact ih [] (by simp) l hl
    · simp only [h, if_false] at hl
      refine ih (cur ++ [c]) ?_ l hl
      simp only [List.mem_append, List.mem_singleton, not_or]
      exact ⟨hc, fun e => h e.symm⟩

theorem rawLines_no_newline (data : GoString) : ∀ l ∈ rawLines data, '\n' ∉ l :=
  rawLinesAux_no_newline [] data (by simp)

theorem joinLines_rawLinesAux (cur data : GoString) (h : data.getLast? = some '\n') :
    joinLines (rawLinesAux cur data) = cur ++ data := by
  induction data generalizing cur with
  | nil => simp at h
  | cons c cs ih =>
    unfold rawLinesAux
    by_cases hc : c = '\n'
    · simp only [hc, if_true, joinLines_cons]
      cases cs with
      | nil => simp [rawLinesAux, joinLines]
      | cons d ds =>
        have h2 : (d :: ds).getLast? = some '\n' := by
          rw [List.getLast?_cons_cons] at h; exact h
        rw [ih [] h2]
        simp
    · simp only [hc, if_false]
      cases cs with
      | nil => simp at h; exact absurd h hc
      | cons d ds =>
        have h2 : (d :: ds).getLast? = some '\n' := by
          rw [List.getLast?_cons_cons] at h; exact h
        rw [ih (cur ++ [c]) h2]
        simp

theorem joinLines_rawLines (data : GoString) (h : data = [] ∨ data.getLast? = some '\n') :
    joinLines (rawLines data) = data := by
  rcases h with h | h
  · subst h; rfl
  · unfold rawLines
    rw [joinLines_rawLinesAux [] data h]
    simp

theorem map_dropCR_of_no_cr (ls : List GoString) (h : ∀ l ∈ ls, l.getLast? ≠ some '\r') :
    ls.map dropCR = ls := by
  conv_rhs => rw [← List.map_id ls]
  apply List.map_congr_left
  intro l hl
  unfold dropCR
  rw [if_neg (h l hl), id]

theorem dropCR_cases (l : GoString) : dropCR l = l ∨ l = dropCR l ++ ['\r'] := by
  unfold dropCR
  by_cases h : l.getLast? = some '\r'
  · right
    rw [if_pos h]
    have hne : l ≠ [] := by
      intro h0; rw [h0] at h; simp at h
    have h2 := List.dropLast_append_getLast hne
    rw [List.getLast?_eq_getLast _ hne] at h
    simp only [Option.some.injEq] at h
    rw [h] at h2
    exact h2.symm
  · left
    rw [if_neg h]

theorem dropCR_no_newline (l : GoString) (h : '\n' ∉ l) : '\n' ∉ dropCR l := by
  rcases dropCR_cases l with h1 | h1
  · rw [h1]; exact h
  · intro hm
    apply h
    rw [h1]
    simp [hm]

theorem byteLen_append (a b : GoString) : byteLen (a ++ b) = byteLen a + byteLen b := by
  simp [byteLen]

theorem byteLen_dropCR_le (l : GoString) : byteLen (dropCR l) ≤ byteLen l := by
  rcases dropCR_cases l with h1 | h1
  · rw [h1]
  · conv_rhs => rw [h1]
    rw [byteLen_append]
    omega

theorem fits_dropCR (l : GoString) (h : fits l = true) : fits (dropCR l) = true := by
  unfold fits at h ⊢
  simp only [decide_eq_true_eq] at h ⊢
  exact lt_of_le_of_lt (byteLen_dropCR_le l) h

theorem trim_concat_pos (p : Char → Bool) (r : Char) (hr : p r = true) (l : GoString) :
    ((l ++ [r]).dropWhile p).rdropWhile p = (l.dropWhile p).rdropWhile p := by
  induction l with
  | nil => simp [List.dropWhile, hr]
  | cons a l ih =>
    by_cases ha : p a = true
    · rw [List.cons_append, List.dropWhile_cons_of_pos ha, List.dropWhile_cons_of_pos ha, ih]
    · rw [List.cons_append, List.dropWhile_cons_of_neg ha, List.dropWhile_cons_of_neg ha,
        ← List.cons_append, List.rdropWhile_concat_pos _ _ _ hr]

theorem trimSpace_dropCR (l : GoString) : TrimSpace (dropCR l) = TrimSpace l := by
  rcases dropCR_cases l with h1 | h1
  · rw [h1]
  · conv_rhs => rw [h1]
    unfold TrimSpace
    rw [trim_concat_pos unicode.IsSpace '\r' (by decide)]

theorem rdropWhile_cons_head (p : Char → Bool) (a : Char) (ha : p a = false) (l : GoString) :
    ((a :: l).rdropWhile p).head? = some a := by
  induction l using List.reverseRecOn with
  | nil => simp [List.rdropWhile, List.dropWhile, ha]
  | append_singleton l b ih =>
    rw [← List.cons_append, List.rdropWhile_concat]
    by_cases hb : p b = true
    · rw [if_pos hb]; exact ih
    · rw [if_neg hb]; rfl

theorem trimSpace_cons_head (a : Char) (ha : unicode.IsSpace a = false) (l : GoString) :
    (TrimSpace (a :: l)).head? = some a := by
  unfold TrimSpace
  rw [List.dropWhile_cons_of_neg (by simp [ha])]
  exact rdropWhile_cons_head _ a ha l

theorem keptLines_sublist (b : Bool) (ls : List GoString) : (keptLines b ls).Sublist ls := by
  induction ls generalizing b with
  | nil => exact List.Sublist.slnil
  | cons l rest ih =>
    unfold keptLines
    by_cases h1 : TrimSpace l = beginMarker
    · simp only [h1, if_true]; exact (ih true).cons l
    · by_cases h2 : TrimSpace l = endMarker
      · simp only [h1, h2, if_true, if_false]; exact (ih false).cons l
      · cases b with
        | true =>
          simp only [h1, h2, if_false, Bool.not_true, Bool.false_eq_true]
          exact (ih true).cons l
        | false =>
          simp only [h1, h2, if_false, Bool.not_false, if_true]
          exact (ih false).cons₂ l

theorem keptLines_not_marker (b : Bool) (ls : List GoString) :
    ∀ l ∈ keptLines b ls, ¬ isMarker l := by
  induction ls generalizing b with
  | nil => intro l hl; simp [keptLines] at hl
  | cons x rest ih =>
    intro l hl
    unfold keptLines at hl
    by_cases h1 : TrimSpace x = beginMarker
    · simp only [h1, if_true] at hl; exact ih true l hl
    · by_cases h2 : TrimSpace x = endMarker
      · simp only [h1, h2, if_true, if_false] at hl; exact ih false l hl
      · cases b with
        | true =>
          simp only [h1, h2, if_false, Bool.not_true, Bool.false_eq_true] at hl
          exact ih true l hl
        | false =>
          simp only [h1, h2, if_false, Bool.not_false, if_true, List.mem_cons] at hl
          rcases hl with hl | hl
          · rw [hl]; intro hm; rcases hm with hm | hm
            · exact h1 hm
            · exact h2 hm
          · exact ih false l hl

theorem keptLines_append_of_no_marker (xs ys : List GoString) (h : ∀ l ∈ xs, ¬ isMarker l) :
    keptLines false (xs ++ ys) = xs ++ keptLines false ys := by
  induction xs with
  | nil => rfl
  | cons x xs ih =>
    have hx : ¬ isMarker x := h x (by simp)
    have h1 : ¬ TrimSpace x = beginMarker := fun e => hx (Or.inl e)
    have h2 : ¬ TrimSpace x = endMarker := fun e => hx (Or.inr e)
    rw [List.cons_append, keptLines]
    simp only [h1, h2, if_false, Bool.not_false, if_true]
    rw [ih (fun l hl => h l (by simp [hl]))]
    rfl

theorem keptLines_of_no_marker (xs : List GoString) (h : ∀ l ∈ xs, ¬ isMarker l) :
    keptLines false xs = xs := by
  have := keptLines_append_of_no_marker xs [] h
  simpa [keptLines] using this

theorem keptLines_true_append_end (xs ys : List GoString) (e : GoString)
    (h : ∀ l ∈ xs, TrimSpace l ≠ endMarker) (he : TrimSpace e = endMarker) :
    keptLines true (xs ++ e :: ys) = keptLines false ys := by
  induction xs with
  | nil =>
    have hb : ¬ TrimSpace e = beginMarker := by rw [he]; decide
    rw [List.nil_append, keptLines, if_neg hb, if_pos he]
  | cons x xs ih =>
    have h2 : ¬ TrimSpace x = endMarker := h x (by simp)
    rw [List.cons_append, keptLines]
    by_cases h1 : TrimSpace x = beginMarker
    · simp only [h1, if_true]
      exact ih (fun l hl => h l (by simp [hl]))
    · simp only [h1, h2, if_false, Bool.not_true, Bool.false_eq_true]
      exact ih (fun l hl => h l (by simp [hl]))

theorem tokens_of_fits (c : GoString) (h : ∀ l ∈ rawLines c, fits l = true) :
    Scanner.tokens c = (rawLines c).map dropCR := by
  unfold Scanner.tokens
  rw [List.takeWhile_eq_self_iff.mpr h]

theorem tooLong_of_fits (c : GoString) (h : ∀ l ∈ rawLines c, fits l = true) :
    Scanner.tooLong c = false := by
  unfold Scanner.tooLong
  rw [List.all_eq_true.mpr h]
  rfl

theorem unblock_ok (f : HostsFile) (hr : f.readable = true) (hw : f.writable = true)
    (hf : ∀ l ∈ rawLines f.content, fits l = true) :
    Unblock f =
      (none, { f with content := joinLines (keptLines false ((rawLines f.content).map dropCR)) }) := by
  unfold Unblock
  simp only [hr, hw, tooLong_of_fits _ hf, tokens_of_fits _ hf, unblockLoop_eq, Bool.not_true,
    Bool.false_eq_true, if_false]

theorem unblock_fail (f : HostsFile)
    (h : ¬ (f.readable = true ∧ f.writable = true ∧ ∀ l ∈ rawLines f.content, fits l = true)) :
    (Unblock f).1 ≠ none ∧ (Unblock f).2 = f := by
  unfold Unblock
  by_cases hr : f.readable = true
  · by_cases hf : ∀ l ∈ rawLines f.content, fits l = true
    · have hw : f.writable = false := by
        rw [← Bool.not_eq_true]
        exact fun hw => h ⟨hr, hw, hf⟩
      simp [hr, hw, tooLong_of_fits _ hf]
    · have ht : Scanner.tooLong f.content = true := by
        unfold Scanner.tooLong
        rw [Bool.not_eq_true', ← Bool.not_eq_true, List.all_eq_true]
        exact hf
      simp [hr, ht]
  · simp [hr]

theorem unblock_none (f f1 : HostsFile) (h : Unblock f = (none, f1)) :
    f.readable = true ∧ f.writable = true ∧ ∀ l ∈ rawLines f.content, fits l = true := by
  by_contra hc
  have := (unblock_fail f hc).1
  rw [h] at this
  exact this rfl

theorem unblock_joinLines (ls : List GoString) (r w : Bool) (hr : r = true) (hw : w = true)
    (hn : ∀ l ∈ ls, '\n' ∉ l) (hf : ∀ l ∈ ls, fits l = true) :
    Unblock ⟨joinLines ls, r, w⟩ = (none, ⟨joinLines (keptLines false (ls.map dropCR)), r, w⟩) := by
  have hraw : rawLines (joinLines ls) = ls := rawLines_joinLines ls hn
  have := unblock_ok ⟨joinLines ls, r, w⟩ hr hw (by simpa [hraw] using hf)
  simpa [hraw] using this

theorem begin_ne_end : beginMarker ≠ endMarker := by decide

theorem paired_true_any (ls : List GoString) (h : paired true ls = true) :
    (ls.any fun x => decide (TrimSpace x = endMarker)) = true := by
  induction ls with
  | nil => simp [paired] at h
  | cons l rest ih =>
    rw [List.any_cons]
    by_cases h2 : TrimSpace l = endMarker
    · simp [h2]
    · rw [paired, if_neg h2] at h
      simp [h2, ih h]

theorem keptLines_eq_specKeep (b : Bool) (ls : List GoString) (h : paired b ls = true) :
    keptLines b ls = specKeep b ls := by
  induction ls generalizing b with
  | nil => cases b <;> rfl
  | cons l rest ih =>
    cases b with
    | true =>
      rw [keptLines, specKeep]
      by_cases h2 : TrimSpace l = endMarker
      · have h1 : ¬ TrimSpace l = beginMarker := by rw [h2]; exact fun e => begin_ne_end e.symm
        rw [paired, if_pos h2] at h
        simp only [if_neg h1, if_pos h2]
        exact ih false h
      · rw [paired, if_neg h2] at h
        by_cases h1 : TrimSpace l = beginMarker
        · simp only [if_pos h1, if_neg h2]
          exact ih true h
        · simp only [if_neg h1, if_neg h2, Bool.not_true, Bool.false_eq_true, if_false]
          exact ih true h
    | false =>
      rw [keptLines, specKeep]
      by_cases h1 : TrimSpace l = beginMarker
      · rw [paired, if_pos h1] at h
        have hany := paired_true_any rest h
        simp only [if_pos h1, h1, hany, and_self, if_true]
        exact ih true h
      · rw [paired, if_neg h1] at h
        by_cases h2 : TrimSpace l = endMarker
        · rw [if_pos h2] at h
          exact absurd h (by decide)
        · rw [if_neg h2] at h
          simp only [if_neg h1, if_neg h2, h1, false_and, Bool.not_false, if_true, if_false]
          rw [ih false h]

theorem keptLines_segments (segs : List Segment) (rest : List GoString)
    (h : ∀ s ∈ segs, s.wellFormed) :
    keptLines false (segs.flatMap Segment.lines ++ rest)
      = segs.flatMap Segment.outside ++ keptLines false rest := by
  induction segs with
  | nil => rfl
  | cons s segs ih =>
    obtain ⟨ho, hb, hi, he⟩ := h s (by simp)
    have hl : s.lines = s.outside ++ s.beginLine :: (s.inside ++ [s.endLine]) := rfl
    rw [List.flatMap_cons, List.flatMap_cons, List.append_assoc, List.append_assoc, hl,
      List.append_assoc, keptLines_append_of_no_marker _ _ ho, List.cons_append, keptLines,
      if_pos hb, List.append_assoc, List.singleton_append,
      keptLines_true_append_end _ _ _ hi he, ih (fun t ht => h t (by simp [ht]))]

theorem trimSpace_sublist (s : GoString) : (TrimSpace s).Sublist s :=
  ((List.rdropWhile_prefix _ _).sublist).trans (List.dropWhile_sublist _)

theorem trim_sublist (s cutset : GoString) : (Trim s cutset).Sublist s :=
  ((List.rdropWhile_prefix _ _).sublist).trans (List.dropWhile_sublist _)

theorem trimPrefix_sublist (s p : GoString) : (TrimPrefix s p).Sublist s := by
  unfold TrimPrefix
  split
  · exact List.drop_sublist _ _
  · exact List.Sublist.refl _

theorem cleanURL_sublist (url : GoString) : (cleanURL url).Sublist url :=
  (trimSpace_sublist _).trans ((trimPrefix_sublist _ _).trans (trimPrefix_sublist _ _))

theorem expandURL_no_newline (url : GoString) (h : '\n' ∉ url) :
    ∀ x ∈ expandURL url, '\n' ∉ x := by
  have hu : '\n' ∉ cleanURL url := fun e => h ((cleanURL_sublist url).subset e)
  have hb : '\n' ∉ Trim (ReplaceAll (cleanURL url) '*' []) ".".toList := by
    intro e
    have e1 := (trim_sublist _ _).subset e
    rw [replaceAll_star] at e1
    exact hu (List.mem_of_mem_filter e1)
  have hsub : ∀ s ∈ commonSubdomains, '\n' ∉ s := by decide
  have htld : ∀ s ∈ commonTLDs, '\n' ∉ s := by decide
  have hwww : '\n' ∉ "www.".toList := by decide
  have hdot : '\n' ∉ ".".toList := by decide
  intro x hx
  unfold expandURL at hx
  simp only [trimSuffix_trim_dot] at hx
  generalize Trim (ReplaceAll (cleanURL url) '*' []) ".".toList = base at hx hb
  generalize cleanURL url = u at hx hu
  have close : ∀ l : List GoString, (∀ y ∈ l, '\n' ∉ y) → x ∈ l → '\n' ∉ x :=
    fun l hl hxl => hl x hxl
  have hvar : ∀ y ∈ [base, "www.".toList ++ base], '\n' ∉ y := by
    intro y hy
    simp only [List.mem_cons, List.mem_singleton, List.not_mem_nil, or_false] at hy
    rcases hy with hy | hy
    · rw [hy]; exact hb
    · rw [hy]; simp only [List.mem_append, not_or]; exact ⟨hwww, hb⟩
  have hsubs : ∀ y ∈ commonSubdomains.map (fun sub => sub ++ ".".toList ++ base), '\n' ∉ y := by
    intro y hy
    rw [List.mem_map] at hy
    obtain ⟨s, hs, hy⟩ := hy
    rw [← hy]; simp only [List.mem_append, not_or]; exact ⟨⟨hsub s hs, hdot⟩, hb⟩
  have htlds : ∀ y ∈ commonTLDs.flatMap (fun tld =>
      [base ++ ".".toList ++ tld, "www.".toList ++ base ++ ".".toList ++ tld]), '\n' ∉ y := by
    intro y hy
    rw [List.mem_flatMap] at hy
    obtain ⟨t, ht, hy⟩ := hy
    simp only [List.mem_cons, List.mem_singleton, List.not_mem_nil, or_false] at hy
    rcases hy with hy | hy
    · rw [hy]; simp only [List.mem_append, not_or]; exact ⟨⟨hb, hdot⟩, htld t ht⟩
    · rw [hy]; simp only [List.mem_append, not_or]; exact ⟨⟨⟨hwww, hb⟩, hdot⟩, htld t ht⟩
  have happ : ∀ l1 l2 : List GoString, (∀ y ∈ l1, '\n' ∉ y) → (∀ y ∈ l2, '\n' ∉ y) →
      ∀ y ∈ l1 ++ l2, '\n' ∉ y := by
    intro l1 l2 h1 h2 y hy
    rw [List.mem_append] at hy
    rcases hy with hy | hy
    · exact h1 y hy
    · exact h2 y hy
  split at hx
  · split at hx
    · simp at hx
    · split at hx <;> split at hx
      · exact close _ (happ _ _ (happ _ _ hvar hsubs) htlds) hx
      · exact close _ (happ _ _ hvar htlds) hx
      · exact close _ (happ _ _ hvar hsubs) hx
      · exact close _ hvar hx
  · split at hx
    · simp only [List.mem_cons, List.mem_singleton, List.not_mem_nil, or_false] at hx
      rcases hx with hx | hx
      · rw [hx]; exact hu
      · rw [hx]; simp only [List.mem_append, not_or]; exact ⟨hwww, hu⟩
    · simp only [List.mem_singleton] at hx
      rw [hx]; exact hu

theorem expandWildcards_no_newline (urls : List GoString) (h : ∀ u ∈ urls, '\n' ∉ u) :
    ∀ x ∈ expandWildcards urls, '\n' ∉ x := by
  induction urls with
  | nil => intro x hx; simp [expandWildcards] at hx
  | cons u rest ih =>
    intro x hx
    rw [expandWildcards, List.mem_append] at hx
    rcases hx with hx | hx
    · exact expandURL_no_newline u (h u (by simp)) x hx
    · exact ih (fun v hv => h v (by simp [hv])) x hx

theorem rulesLoop_eq (hosts : List GoString) : rulesLoop hosts = joinLines (ruleLines hosts) := by
  induction hosts with
  | nil => rfl
  | cons h rest ih =>
    rw [rulesLoop, ih]
    simp [ruleLines, joinLines]

theorem blockingRules_eq (hosts : List GoString) :
    blockingRules hosts = joinLines ([] :: beginMarker :: (ruleLines hosts ++ [endMarker])) := by
  unfold blockingRules
  rw [rulesLoop_eq, joinLines_cons, joinLines_cons, joinLines_append]
  simp [joinLines]

theorem block_of_unblock (P : List GoString) (f f1 : HostsFile) (h : Unblock f = (none, f1)) :
    Block P f =
      (none, { f1 with content := f1.content ++ blockingRules (expandWildcards P) }) := by
  obtain ⟨hr, hw, hf⟩ := unblock_none f f1 h
  have h1 := unblock_ok f hr hw hf
  rw [h] at h1
  have hf1 := (Prod.mk.inj h1).2
  have hr1 : f1.readable = true := by rw [hf1]; exact hr
  have hw1 : f1.writable = true := by rw [hf1]; exact hw
  unfold Block
  rw [h]
  simp only [hr1, hw1, Bool.not_true, Bool.false_eq_true, if_false]

theorem ruleLines_no_end (hosts : List GoString) :
    ∀ l ∈ (ruleLines hosts).map dropCR, TrimSpace l ≠ endMarker := by
  intro l hl
  rw [List.mem_map] at hl
  obtain ⟨r, hr, hl⟩ := hl
  rw [← hl, trimSpace_dropCR]
  unfold ruleLines at hr
  rw [List.mem_flatMap] at hr
  obtain ⟨h, _, hr⟩ := hr
  simp only [List.mem_cons, List.mem_singleton, List.not_mem_nil, or_false] at hr
  intro he
  have hh := congrArg List.head? he
  rcases hr with hr | hr
  · rw [hr] at hh
    have : (TrimSpace ("127.0.0.1 ".toList ++ h)).head? = some '1' :=
      trimSpace_cons_head '1' (by decide) _
    rw [this] at hh
    exact absurd hh (by decide)
  · rw [hr] at hh
    have : (TrimSpace ("::1 ".toList ++ h)).head? = some ':' :=
      trimSpace_cons_head ':' (by decide) _
    rw [this] at hh
    exact absurd hh (by decide)

theorem fits_rule (h : GoString) (hf : fits ("127.0.0.1 ".toList ++ h) = true) :
    fits ("::1 ".toList ++ h) = true := by
  unfold fits at hf ⊢
  simp only [decide_eq_true_eq, byteLen_append] at hf ⊢
  have h1 : byteLen "127.0.0.1 ".toList = 10 := by decide
  have h2 : byteLen "::1 ".toList = 4 := by decide
  omega

theorem unblock_after_block (K : List GoString) (hosts : List GoString) (r w : Bool)
    (hr : r = true) (hw : w = true)
    (hKn : ∀ l ∈ K, '\n' ∉ l) (hKf : ∀ l ∈ K, fits l = true)
    (hKm : ∀ l ∈ K.map dropCR, ¬ isMarker l)
    (hn : ∀ h ∈ hosts, '\n' ∉ h)
    (hfit : ∀ h ∈ hosts, fits ("127.0.0.1 ".toList ++ h) = true) :
    Unblock ⟨joinLines K ++ blockingRules hosts, r, w⟩
      = (none, ⟨joinLines (K.map dropCR) ++ ['\n'], r, w⟩) := by
  have hRn : ∀ l ∈ ruleLines hosts, '\n' ∉ l := by
    intro l hl
    unfold ruleLines at hl
    rw [List.mem_flatMap] at hl
    obtain ⟨h, hh, hl⟩ := hl
    simp only [List.mem_cons, List.mem_singleton, List.not_mem_nil, or_false] at hl
    have c1 : '\n' ∉ "127.0.0.1 ".toList := by decide
    have c2 : '\n' ∉ "::1 ".toList := by decide
    rcases hl with hl | hl
    · rw [hl]; simp only [List.mem_append, not_or]; exact ⟨c1, hn h hh⟩
    · rw [hl]; simp only [List.mem_append, not_or]; exact ⟨c2, hn h hh⟩
  have hRf : ∀ l ∈ ruleLines hosts, fits l = true := by
    intro l hl
    unfold ruleLines at hl
    rw [List.mem_flatMap] at hl
    obtain ⟨h, hh, hl⟩ := hl
    simp only [List.mem_cons, List.mem_singleton, List.not_mem_nil, or_false] at hl
    rcases hl with hl | hl
    · rw [hl]; exact hfit h hh
    · rw [hl]; exact fits_rule h (hfit h hh)
  have hbn : '\n' ∉ beginMarker := by decide
  have hen : '\n' ∉ endMarker := by decide
  have hbf : fits beginMarker = true := by decide
  have hef : fits endMarker = true := by decide
  have hnf : fits [] = true := by decide
  have hall_n : ∀ l ∈ K ++ [] :: beginMarker :: (ruleLines hosts ++ [endMarker]), '\n' ∉ l := by
    intro l hl
    simp only [List.mem_append, List.mem_cons, List.mem_singleton, List.not_mem_nil,
      or_false] at hl
    rcases hl with hl | hl | hl | hl | hl
    · exact hKn l hl
    · rw [hl]; simp
    · rw [hl]; exact hbn
    · exact hRn l hl
    · rw [hl]; exact hen
  have hall_f : ∀ l ∈ K ++ [] :: beginMarker :: (ruleLines hosts ++ [endMarker]),
      fits l = true := by
    intro l hl
    simp only [List.mem_append, List.mem_cons, List.mem_singleton, List.not_mem_nil,
      or_false] at hl
    rcases hl with hl | hl | hl | hl | hl
    · exact hKf l hl
    · rw [hl]; exact hnf
    · rw [hl]; exact hbf
    · exact hRf l hl
    · rw [hl]; exact hef
  have hcontent : joinLines K ++ blockingRules hosts
      = joinLines (K ++ [] :: beginMarker :: (ruleLines hosts ++ [endMarker])) := by
    rw [blockingRules_eq, joinLines_append]
  rw [hcontent, unblock_joinLines _ r w hr hw hall_n hall_f]
  have hd0 : dropCR [] = [] := by decide
  have hdb : dropCR beginMarker = beginMarker := by decide
  have hde : dropCR endMarker = endMarker := by decide
  have ht0b : ¬ TrimSpace [] = beginMarker := by decide
  have ht0e : ¬ TrimSpace [] = endMarker := by decide
  have htb : TrimSpace beginMarker = beginMarker := by decide
  have hte : TrimSpace endMarker = endMarker := by decide
  have hkept : keptLines false
      ((K ++ [] :: beginMarker :: (ruleLines hosts ++ [endMarker])).map dropCR)
      = K.map dropCR ++ [[]] := by
    rw [List.map_append, keptLines_append_of_no_marker _ _ hKm]
    congr 1
    rw [List.map_cons, List.map_cons, List.map_append, List.map_singleton, hd0, hdb, hde,
      keptLines, if_neg ht0b, if_neg ht0e]
    simp only [Bool.not_false, if_true]
    rw [keptLines, if_pos htb, keptLines_true_append_end _ [] endMarker (ruleLines_no_end hosts) hte]
    rfl
  rw [hkept, joinLines_append]
  rfl

theorem blockingRules_eq_specRegion (hosts : List GoString) :
    blockingRules hosts = '\n' :: specRegion hosts := by
  unfold blockingRules specRegion
  have : rulesLoop hosts = hosts.flatMap
      (fun h => "127.0.0.1 ".toList ++ h ++ ['\n'] ++ ("::1 ".toList ++ h ++ ['\n'])) := by
    induction hosts with
    | nil => rfl
    | cons h rest ih => rw [rulesLoop, ih, List.flatMap_cons]
  rw [this]
  simp

theorem unblock_none_no_marker (f f1 : HostsFile) (h : Unblock f = (none, f1)) :
    ∀ l ∈ rawLines f1.content, ¬ isMarker l := by
  obtain ⟨hr, hw, hf⟩ := unblock_none f f1 h
  have h1 := unblock_ok f hr hw hf
  rw [h] at h1
  have hc : f1.content = joinLines (keptLines false ((rawLines f.content).map dropCR)) :=
    congrArg HostsFile.content (Prod.mk.inj h1).2
  have hsub := keptLines_sublist false ((rawLines f.content).map dropCR)
  have hnm := keptLines_not_marker false ((rawLines f.content).map dropCR)
  generalize keptLines false ((rawLines f.content).map dropCR) = K at hc hsub hnm
  have hn : ∀ l ∈ K, '\n' ∉ l := fun l hl => by
    have := hsub.subset hl
    rw [List.mem_map] at this
    obtain ⟨r, hr1, hr2⟩ := this
    rw [← hr2]
    exact dropCR_no_newline r (rawLines_no_newline _ r hr1)
  rw [hc, rawLines_joinLines K hn]
  exact hnm

theorem save_store (st : AppState) (d : Store) :
    (state.Save st d).2 = d ∨
      ((state.Save st d).1 = none ∧ (state.Save st d).2.file = StateFile.record st) := by
  unfold state.Save
  by_cases hm : state.marshals st = true
  · by_cases h : d.writable = true
    · right; simp [hm, h]
    · left; simp [hm, h]
  · left; simp [hm]

theorem contains_iff (s m : GoString) : Contains s m = true ↔ m <:+: s := by
  induction s with
  | nil =>
    unfold Contains
    simp [List.isEmpty_iff]
  | cons a s ih =>
    unfold Contains
    rw [Bool.or_eq_true, ih, List.infix_cons_iff]
    exact or_congr List.isPrefixOf_iff_prefix Iff.rfl

theorem prefix_of_not_mem (x : Char) (m a b : GoString) (hx : x ∉ m)
    (h : m <+: a ++ x :: b) : m <+: a := by
  induction a generalizing m with
  | nil =>
    cases m with
    | nil => exact List.nil_prefix
    | cons y m1 =>
      rw [List.nil_append] at h
      have := (List.cons_prefix_cons.mp h).1
      exact absurd (by simp [this]) hx
  | cons c a ih =>
    cases m with
    | nil => exact List.nil_prefix
    | cons y m1 =>
      rw [List.cons_append] at h
      obtain ⟨h1, h2⟩ := List.cons_prefix_cons.mp h
      have hx1 : x ∉ m1 := fun e => hx (by simp [e])
      exact List.cons_prefix_cons.mpr ⟨h1, ih m1 hx1 h2⟩

theorem infix_of_not_mem (x : Char) (m a b : GoString) (hx : x ∉ m)
    (h : m <:+: a ++ x :: b) : m <:+: a ∨ m <:+: b := by
  induction a with
  | nil =>
    rw [List.nil_append, List.infix_cons_iff] at h
    rcases h with h | h
    · left
      exact (prefix_of_not_mem x m [] b hx (by simpa using h)).isInfix
    · right; exact h
  | cons c a ih =>
    rw [List.cons_append, List.infix_cons_iff] at h
    rcases h with h | h
    · left
      exact (prefix_of_not_mem x m (c :: a) b hx (by simpa using h)).isInfix
    · rcases ih h with h1 | h1
      · left
        exact List.infix_cons_iff.mpr (Or.inr h1)
      · right; exact h1

theorem infix_joinLines (m : GoString) (K : List GoString) (hn : '\n' ∉ m) (hm : m ≠ [])
    (h : m <:+: joinLines K) : ∃ l ∈ K, m <:+: l := by
  induction K with
  | nil =>
    exfalso
    have : m = [] := by simpa [joinLines] using h
    exact hm this
  | cons l K ih =>
    rw [joinLines_cons] at h
    rcases infix_of_not_mem '\n' m l (joinLines K) hn h with h1 | h1
    · exact ⟨l, by simp, h1⟩
    · obtain ⟨l1, hl1, h2⟩ := ih h1
      exact ⟨l1, by simp [hl1], h2⟩

theorem block_none (P : List GoString) (f f1 : HostsFile) (h : Block P f = (none, f1)) :
    f1.readable = true ∧
    ∃ c : GoString, f1.content = c ++ blockingRules (expandWildcards P) := by
  rcases hU : Unblock f with ⟨ue, f0⟩
  cases ue with
  | some e =>
    unfold Block at h
    rw [hU] at h
    simp at h
  | none =>
    obtain ⟨hr, _, _⟩ := unblock_none f f0 hU
    have hr0 : f0.readable = true := by
      have h1 := unblock_ok f hr (unblock_none f f0 hU).2.1 (unblock_none f f0 hU).2.2
      rw [hU] at h1
      rw [(Prod.mk.inj h1).2]
      exact hr
    rw [block_of_unblock P f f0 hU] at h
    have h2 := (Prod.mk.inj h).2
    rw [← h2]
    exact ⟨hr0, f0.content, rfl⟩

theorem scanState_eq (b : Bool) (ls : List GoString) :
    scanState b ls =
      match (ls.filter (fun l => decide (isMarker l))).getLast? with
      | some l => decide (TrimSpace l = beginMarker)
      | none => b := by
  induction ls generalizing b with
  | nil => rfl
  | cons l rest ih =>
    unfold scanState
    by_cases h1 : TrimSpace l = beginMarker
    · have hm : isMarker l := Or.inl h1
      rw [if_pos h1, ih true, List.filter_cons_of_pos (by simpa using hm)]
      cases hF : rest.filter (fun l => decide (isMarker l)) with
      | nil => simp [h1]
      | cons y F =>
        rw [List.getLast?_cons_cons, List.getLast?_eq_getLast _ (List.cons_ne_nil y F)]
    · by_cases h2 : TrimSpace l = endMarker
      · have hm : isMarker l := Or.inr h2
        rw [if_neg h1, if_pos h2, ih false, List.filter_cons_of_pos (by simpa using hm)]
        cases hF : rest.filter (fun l => decide (isMarker l)) with
        | nil => simp [h1]
        | cons y F =>
        rw [List.getLast?_cons_cons, List.getLast?_eq_getLast _ (List.cons_ne_nil y F)]
      · have hm : ¬ isMarker l := fun e => e.elim h1 h2
        rw [if_neg h1, if_neg h2, ih b, List.filter_cons_of_neg (by simpa using hm)]

theorem scanState_false_eq (ls : List GoString) : scanState false ls = regionOpen ls :=
  scanState_eq false ls

theorem keptLines_append (b : Bool) (xs ys : List GoString) :
    keptLines b (xs ++ ys) = keptLines b xs ++ keptLines (scanState b xs) ys := by
  induction xs generalizing b with
  | nil => rfl
  | cons x xs ih =>
    rw [List.cons_append, keptLines, keptLines, scanState]
    by_cases h1 : TrimSpace x = beginMarker
    · simp only [if_pos h1]; exact ih true
    · by_cases h2 : TrimSpace x = endMarker
      · simp only [if_neg h1, if_pos h2]; exact ih false
      · cases b with
        | true =>
          simp only [if_neg h1, if_neg h2, Bool.not_true, Bool.false_eq_true, if_false]
          exact ih true
        | false =>
          simp only [if_neg h1, if_neg h2, Bool.not_false, if_true, List.cons_append]
          rw [ih false]

theorem keptLines_true_no_end (ls : List GoString) (h : ∀ l ∈ ls, TrimSpace l ≠ endMarker) :
    keptLines true ls = [] := by
  induction ls with
  | nil => rfl
  | cons l rest ih =>
    have h2 : ¬ TrimSpace l = endMarker := h l (by simp)
    rw [keptLines]
    by_cases h1 : TrimSpace l = beginMarker
    · rw [if_pos h1]; exact ih (fun x hx => h x (by simp [hx]))
    · rw [if_neg h1, if_neg h2]
      simp only [Bool.not_true, Bool.false_eq_true, if_false]
      exact ih (fun x hx => h x (by simp [hx]))

theorem keptLines_begin (b : Bool) (l : GoString) (rest : List GoString)
    (h : TrimSpace l = beginMarker) : keptLines b (l :: rest) = keptLines true rest := by
  rw [keptLines, if_pos h]

theorem keptLines_end (b : Bool) (l : GoString) (rest : List GoString)
    (h : TrimSpace l = endMarker) : keptLines b (l :: rest) = keptLines false rest := by
  have h1 : ¬ TrimSpace l = beginMarker := by rw [h]; exact fun e => begin_ne_end e.symm
  rw [keptLines, if_neg h1, if_pos h]

theorem clamp_pos (a : Int) :
    0 < (if (9223372036854775807 : Int) < a then (9223372036854775807 : Int)
      else if a < -9223372036854775808 then -9223372036854775808 else a) ↔ 0 < a := by
  split_ifs <;> omega

theorem clamp_exact (a : Int) (h1 : -9223372036854775808 ≤ a) (h2 : a ≤ 9223372036854775807) :
    (if (9223372036854775807 : Int) < a then (9223372036854775807 : Int)
      else if a < -9223372036854775808 then -9223372036854775808 else a) = a := by
  split_ifs <;> omega

theorem timeSub_pos (t u : Time) : 0 < time.Sub t u ↔ u < t :=
  (clamp_pos (t - u)).trans sub_pos

theorem timeSub_exact (t u : Time) (h1 : time.minDuration ≤ t - u)
    (h2 : t - u ≤ time.maxDuration) : time.Sub t u = t - u :=
  clamp_exact (t - u) h1 h2

theorem unblock_err_unchanged (f : HostsFile) (h : (Unblock f).1 ≠ none) :
    (Unblock f).2 = f := by
  by_cases hs : f.readable = true ∧ f.writable = true ∧ ∀ l ∈ rawLines f.content, fits l = true
  · obtain ⟨hr, hw, hf⟩ := hs
    rw [unblock_ok f hr hw hf] at h
    exact absurd rfl h
  · exact (unblock_fail f hs).2

theorem load_after_save (st0 st : AppState) (d : Store)
    (hload : state.Load d = Except.ok st0) (hm : state.marshals st = true)
    (hw : d.writable = true) : state.Load (state.Save st d).2 = Except.ok st := by
  have hd : d.dirOk = true := by
    by_contra hd
    unfold state.Load at hload
    simp [hd] at hload
  unfold state.Save state.Load
  simp [hm, hw, hd]

theorem tick_world (w : World) (now : Time) (st : AppState)
    (hload : state.Load w.store = Except.ok st) :
    (st.ActiveSession ≠ none → st.IsSessionActive now = false → (Unblock w.hosts).1 = none →
      (daemon.tick w now).1 =
        { hosts := (Unblock w.hosts).2, store := (state.Save st.EndSession w.store).2 }) ∧
    ((Unblock w.hosts).1 ≠ none → (daemon.tick w now).1 = w) := by
  unfold daemon.tick
  rw [hload]
  obtain ⟨urls, a⟩ := st
  cases a with
  | none => simp
  | some x =>
    by_cases hact : IsSessionActive ⟨urls, some x⟩ now = true
    · simp [hact]
    · have hact2 : IsSessionActive ⟨urls, some x⟩ now = false := by
        rw [← Bool.not_eq_true]; exact hact
      simp only [hact2, Bool.not_false, if_true]
      have hun := unblock_err_unchanged w.hosts
      rcases hU : Unblock w.hosts with ⟨ue, h1⟩
      rw [hU] at hun
      cases ue with
      | some e =>
        have h2 : h1 = w.hosts := hun (by simp)
        subst h2
        simp
      | none =>
        rcases hS : state.Save (EndSession ⟨urls, some x⟩) w.store with ⟨se, store1⟩
        cases se <;> simp

theorem tick_events (w : World) (now : Time) (st : AppState)
    (hload : state.Load w.store = Except.ok st) :
    ((∃ err, Event.save st.EndSession err ∈ (daemon.tick w now).2) ↔
      (st.ActiveSession ≠ none ∧ st.IsSessionActive now = false ∧
        (Unblock w.hosts).1 = none)) ∧
    (∀ st1 err, Event.save st1 err ∈ (daemon.tick w now).2 →
      st1 = st.EndSession ∧ st1.ActiveSession = none) ∧
    ((Unblock w.hosts).1 ≠ none →
      (daemon.tick w now).1.store = w.store ∧
      ∀ st1 err, Event.save st1 err ∉ (daemon.tick w now).2) ∧
    ((st.ActiveSession = none ∨ st.IsSessionActive now = true) →
      daemon.tick w now = (w, [])) ∧
    ((daemon.tick w now).1.store ≠ w.store →
      (Unblock w.hosts).1 = none ∧ (daemon.tick w now).1.hosts = (Unblock w.hosts).2 ∧
      (daemon.tick w now).1.store.file = StateFile.record st.EndSession ∧
      ∀ l ∈ rawLines (daemon.tick w now).1.hosts.content, ¬ isMarker l) := by
  unfold daemon.tick
  rw [hload]
  obtain ⟨urls, a⟩ := st
  cases a with
  | none => simp [IsSessionActive]
  | some x =>
    by_cases hact : IsSessionActive ⟨urls, some x⟩ now = true
    · simp [hact]
    · have hact2 : IsSessionActive ⟨urls, some x⟩ now = false := by
        rw [← Bool.not_eq_true]; exact hact
      simp only [hact2, Bool.not_false, if_true]
      rcases hU : Unblock w.hosts with ⟨ue, h1⟩
      cases ue with
      | some e => simp
      | none =>
        have hnm := unblock_none_no_marker w.hosts h1 hU
        have hsv := save_store (EndSession ⟨urls, some x⟩) w.store
        rcases hS : state.Save (EndSession ⟨urls, some x⟩) w.store with ⟨se, store1⟩
        rw [hS] at hsv
        cases se with
        | some e2 =>
          simp only at hsv
          rcases hsv with hsv | hsv
          · subst hsv
            simp [EndSession]
          · exact absurd hsv.1 (by simp)
        | none =>
          simp only at hsv
          rcases hsv with hsv | hsv
          · subst hsv
            simp [EndSession]
          · simp only [List.mem_cons, List.mem_singleton, List.not_mem_nil, or_false]
            refine ⟨?_, ?_, ?_, ?_, ?_⟩
            · simp
            · intro st1 err hm
              simp at hm
              rw [hm.1]
              simp [EndSession]
            · simp
            · simp
            · intro _
              exact ⟨trivial, trivial, hsv.2, hnm⟩

theorem byteLen_replicate (n : Nat) : byteLen (List.replicate n 'a') = n := by
  induction n with
  | zero => rfl
  | succ n ih =>
    rw [List.replicate_succ]
    have h : byteLen ('a' :: List.replicate n 'a') = 1 + byteLen (List.replicate n 'a') := by
      unfold byteLen
      rw [List.map_cons, List.sum_cons]
      rfl
    rw [h, ih]
    omega

theorem unblock_long_line (n : Nat) (hn : MaxScanTokenSize ≤ n) (rest : GoString)
    (w : Bool) :
    Unblock ⟨List.replicate n 'a' ++ '\n' :: rest, true, w⟩
      = (some Error.readHosts, ⟨List.replicate n 'a' ++ '\n' :: rest, true, w⟩) := by
  have hmem : List.replicate n 'a' ∈ rawLines (List.replicate n 'a' ++ '\n' :: rest) := by
    unfold rawLines
    rw [rawLinesAux_append [] (List.replicate n 'a') rest
      (fun h => absurd (List.eq_of_mem_replicate h) (by decide))]
    simp
  have hfit : fits (List.replicate n 'a') = false := by
    unfold fits
    rw [byteLen_replicate]
    exact decide_eq_false (Nat.not_lt.mpr hn)
  have hlong : Scanner.tooLong (List.replicate n 'a' ++ '\n' :: rest) = true := by
    unfold Scanner.tooLong
    rw [Bool.not_eq_true', ← Bool.not_eq_true, List.all_eq_true]
    intro hall
    have := hall _ hmem
    rw [hfit] at this
    exact absurd this (by decide)
  unfold Unblock
  simp only [hlong, Bool.not_true, Bool.false_eq_true, if_false, if_true]

theorem block_unblock_adds_line (f : HostsFile) (P : List GoString)
    (hr : f.readable = true) (hw : f.writable = true)
    (hend : f.content = [] ∨ f.content.getLast? = some '\n')
    (hf : ∀ l ∈ rawLines f.content, fits l = true)
    (hcr : ∀ l ∈ rawLines f.content, l.getLast? ≠ some '\r')
    (hm : ∀ l ∈ rawLines f.content, TrimSpace l ≠ beginMarker ∧ TrimSpace l ≠ endMarker)
    (hn : ∀ u ∈ P, '\n' ∉ u)
    (hfit : ∀ h ∈ expandWildcards P, fits ("127.0.0.1 ".toList ++ h) = true) :
    (Block P f).1 = none ∧
    Unblock (Block P f).2 = (none, { f with content := f.content ++ ['\n'] }) := by
  have hmap := map_dropCR_of_no_cr _ hcr
  have hnm : ∀ l ∈ rawLines f.content, ¬ isMarker l := fun l hl hx => by
    rcases hx with hx | hx
    · exact (hm l hl).1 hx
    · exact (hm l hl).2 hx
  have hu := unblock_ok f hr hw hf
  rw [hmap, keptLines_of_no_marker _ hnm] at hu
  rw [block_of_unblock P f _ hu]
  refine ⟨rfl, ?_⟩
  have := unblock_after_block (rawLines f.content) (expandWildcards P) f.readable f.writable
    hr hw (rawLines_no_newline _) hf (by rw [hmap]; exact hnm)
    (expandWildcards_no_newline P hn) hfit
  rw [hmap] at this
  rw [this, joinLines_rawLines _ hend]

end Lemmas

/-! ## The claims -/

section Claims

open strings bufio blocker AppState

/-- C1 fails on the code: on an ordinary one-line resource `Block` succeeds, the `Unblock`
that follows succeeds, and the resource does not hold its content from before `Block` but
that content and one more empty line, the newline `Block` writes before the begin marker
and `Unblock` does not remove. -/
theorem C1_block_unblock_leaves_line :
    Block ["example.com".toList] ⟨"127.0.0.1 localhost\n".toList, true, true⟩
      = (none, ⟨"127.0.0.1 localhost\n\n# BEGIN SELFCONTROL-TUI\n127.0.0.1 example.com\n::1 example.com\n127.0.0.1 www.example.com\n::1 www.example.com\n# END SELFCONTROL-TUI\n".toList,
          true, true⟩) ∧
    Unblock (Block ["example.com".toList] ⟨"127.0.0.1 localhost\n".toList, true, true⟩).2
      = (none, ⟨"127.0.0.1 localhost\n\n".toList, true, true⟩) ∧
    (Unblock (Block ["example.com".toList]
        ⟨"127.0.0.1 localhost\n".toList, true, true⟩).2).2.content
      ≠ "127.0.0.1 localhost\n".toList := by
  decide

/-- C2, as stated, fails: a line ending in two carriage returns loses one of them at each
`Unblock`, so the second call writes content that differs from what the first wrote. -/
theorem C2_counterexample :
    Unblock ⟨"127.0.0.1 localhost\r\r\n".toList, true, true⟩
        = (none, ⟨"127.0.0.1 localhost\r\n".toList, true, true⟩) ∧
    Unblock ⟨"127.0.0.1 localhost\r\n".toList, true, true⟩
        = (none, ⟨"127.0.0.1 localhost\n".toList, true, true⟩) := by
  decide

/-- C2, amended: when no line of the resource ends in two carriage returns, a second
consecutive `Unblock` returns what the first returned and leaves the resource exactly as
the first left it (it writes byte-identical content when the first succeeded, and fails in
the same way, writing nothing, when the first failed). -/
theorem C2_unblock_idempotent (f : HostsFile)
    (h : ∀ l ∈ rawLines f.content, dropCR (dropCR l) = dropCR l) :
    Unblock (Unblock f).2 = Unblock f := by
  by_cases hs : f.readable = true ∧ f.writable = true ∧ ∀ l ∈ rawLines f.content, fits l = true
  · obtain ⟨hr, hw, hf⟩ := hs
    rw [unblock_ok f hr hw hf]
    have hsub := keptLines_sublist false ((rawLines f.content).map dropCR)
    have hnm := keptLines_not_marker false ((rawLines f.content).map dropCR)
    generalize keptLines false ((rawLines f.content).map dropCR) = K at hsub hnm
    have hmem : ∀ l ∈ K, ∃ r ∈ rawLines f.content, dropCR r = l := fun l hl => by
      have := hsub.subset hl
      simpa using this
    have hn : ∀ l ∈ K, '\n' ∉ l := fun l hl => by
      obtain ⟨r, hr1, hr2⟩ := hmem l hl
      rw [← hr2]
      exact dropCR_no_newline r (rawLines_no_newline _ r hr1)
    have hfit : ∀ l ∈ K, fits l = true := fun l hl => by
      obtain ⟨r, hr1, hr2⟩ := hmem l hl
      rw [← hr2]
      exact fits_dropCR r (hf r hr1)
    have hcr : K.map dropCR = K := by
      conv_rhs => rw [← List.map_id K]
      apply List.map_congr_left
      intro l hl
      obtain ⟨r, hr1, hr2⟩ := hmem l hl
      rw [← hr2, id]
      exact h r hr1
    have := unblock_joinLines K f.readable f.writable hr hw hn hfit
    rw [hcr, keptLines_of_no_marker K hnm] at this
    exact this
  · rw [(unblock_fail f hs).2]

/-- Witness for C2 on a resource with a CRLF line, a marker region and an unterminated
last line. -/
theorem C2_unblock_idempotent_witness :
    (∀ l ∈ rawLines
        "127.0.0.1 localhost\r\n# BEGIN SELFCONTROL-TUI\n127.0.0.1 a.com\n# END SELFCONTROL-TUI\n::1 localhost".toList,
      dropCR (dropCR l) = dropCR l) ∧
    Unblock (Unblock
        ⟨"127.0.0.1 localhost\r\n# BEGIN SELFCONTROL-TUI\n127.0.0.1 a.com\n# END SELFCONTROL-TUI\n::1 localhost".toList,
          true, true⟩).2
      = Unblock
        ⟨"127.0.0.1 localhost\r\n# BEGIN SELFCONTROL-TUI\n127.0.0.1 a.com\n# END SELFCONTROL-TUI\n::1 localhost".toList,
          true, true⟩ :=
  ⟨by decide, C2_unblock_idempotent _ (by decide)⟩

/-- C3, as stated, fails on unbalanced markers: after a begin marker line that no end
marker line follows there is no "next end marker line", yet `Unblock` drops the lines
after it (here an entry of the user) where the claim has them written back. -/
theorem C3_counterexample :
    Unblock ⟨"127.0.0.1 localhost\n# BEGIN SELFCONTROL-TUI\n10.0.0.1 printer\n".toList, true, true⟩
        = (none, ⟨"127.0.0.1 localhost\n".toList, true, true⟩) ∧
    joinLines (specKeep false (Scanner.tokens
        "127.0.0.1 localhost\n# BEGIN SELFCONTROL-TUI\n10.0.0.1 printer\n".toList))
      = "127.0.0.1 localhost\n# BEGIN SELFCONTROL-TUI\n10.0.0.1 printer\n".toList := by
  decide

/-- C3, amended: on a readable and writable resource whose lines fit the scanner and whose
marker lines are properly paired, `Unblock` succeeds and writes back exactly the lines
that do not lie between (or on) a begin marker line and the next end marker line, each as
scanned and followed by a newline, in the original order, for any number of pairs; cut at
its pairs, the resource keeps exactly the lines outside them. -/
theorem C3_unblock_strips_regions :
    (∀ f : HostsFile, f.readable = true → f.writable = true →
      (∀ l ∈ rawLines f.content, fits l = true) →
      paired false (Scanner.tokens f.content) = true →
      Unblock f =
        (none, { f with content := joinLines (specKeep false (Scanner.tokens f.content)) })) ∧
    (∀ (f : HostsFile) (segs : List Segment) (tail : List GoString),
      f.readable = true → f.writable = true →
      (∀ l ∈ rawLines f.content, fits l = true) →
      (∀ s ∈ segs, s.wellFormed) → (∀ l ∈ tail, ¬ isMarker l) →
      Scanner.tokens f.content = segs.flatMap Segment.lines ++ tail →
      Unblock f =
        (none, { f with content := joinLines (segs.flatMap Segment.outside ++ tail) })) := by
  constructor
  · intro f hr hw hf hp
    rw [unblock_ok f hr hw hf, ← keptLines_eq_specKeep false _ hp, tokens_of_fits _ hf]
  · intro f segs tail hr hw hf hs ht htok
    rw [unblock_ok f hr hw hf, ← tokens_of_fits _ hf, htok, keptLines_segments segs tail hs,
      keptLines_of_no_marker tail ht]

/-- Witness for C3 on a resource with two marker pairs, the second one indented and
empty. -/
theorem C3_unblock_strips_regions_witness :
    Unblock
        ⟨"a\n# BEGIN SELFCONTROL-TUI\n127.0.0.1 x\n# END SELFCONTROL-TUI\nb\n  # BEGIN SELFCONTROL-TUI\t\n# END SELFCONTROL-TUI \nc\n".toList,
          true, true⟩
      = (none, ⟨"a\nb\nc\n".toList, true, true⟩) ∧
    Unblock
        ⟨"a\n# BEGIN SELFCONTROL-TUI\n127.0.0.1 x\n# END SELFCONTROL-TUI\nb\n".toList, true, true⟩
      = (none, ⟨joinLines (["a".toList] ++ ["b".toList]), true, true⟩) :=
  ⟨(C3_unblock_strips_regions.1
      ⟨"a\n# BEGIN SELFCONTROL-TUI\n127.0.0.1 x\n# END SELFCONTROL-TUI\nb\n  # BEGIN SELFCONTROL-TUI\t\n# END SELFCONTROL-TUI \nc\n".toList,
        true, true⟩ rfl rfl (by decide) (by decide)).trans (by decide),
   C3_unblock_strips_regions.2
      ⟨"a\n# BEGIN SELFCONTROL-TUI\n127.0.0.1 x\n# END SELFCONTROL-TUI\nb\n".toList, true, true⟩
      [⟨["a".toList], "# BEGIN SELFCONTROL-TUI".toList, ["127.0.0.1 x".toList],
        "# END SELFCONTROL-TUI".toList⟩]
      ["b".toList] rfl rfl (by decide) (by decide) (by decide) (by decide)⟩

/-- C4, as stated, fails: without marker lines `Unblock` still terminates an unterminated
last line with a newline and turns a CRLF line ending into LF. -/
theorem C4_counterexample :
    Unblock ⟨"127.0.0.1 localhost".toList, true, true⟩
        = (none, ⟨"127.0.0.1 localhost\n".toList, true, true⟩) ∧
    Unblock ⟨"127.0.0.1 localhost\r\n".toList, true, true⟩
        = (none, ⟨"127.0.0.1 localhost\n".toList, true, true⟩) := by
  decide

/-- C4, amended: on a readable and writable resource that is empty or ends with a newline,
whose lines fit the scanner, none of them ending in a carriage return and none of them a
marker line, `Unblock` succeeds and writes back exactly the content it read. -/
theorem C4_unblock_noop (f : HostsFile) (hr : f.readable = true) (hw : f.writable = true)
    (hend : f.content = [] ∨ f.content.getLast? = some '\n')
    (hf : ∀ l ∈ rawLines f.content, fits l = true)
    (hcr : ∀ l ∈ rawLines f.content, l.getLast? ≠ some '\r')
    (hm : ∀ l ∈ rawLines f.content, TrimSpace l ≠ beginMarker ∧ TrimSpace l ≠ endMarker) :
    Unblock f = (none, f) := by
  rw [unblock_ok f hr hw hf]
  have hmap := map_dropCR_of_no_cr _ hcr
  have hnm : ∀ l ∈ rawLines f.content, ¬ isMarker l := fun l hl hx => by
    rcases hx with hx | hx
    · exact (hm l hl).1 hx
    · exact (hm l hl).2 hx
  rw [hmap, keptLines_of_no_marker _ hnm, joinLines_rawLines _ hend]

/-- Witness for C4 on a two-line resource. -/
theorem C4_unblock_noop_witness :
    Unblock ⟨"127.0.0.1 localhost\n::1 localhost\n".toList, true, true⟩
      = (none, ⟨"127.0.0.1 localhost\n::1 localhost\n".toList, true, true⟩) :=
  C4_unblock_noop ⟨"127.0.0.1 localhost\n::1 localhost\n".toList, true, true⟩ rfl rfl
    (by decide) (by decide) (by decide) (by decide)

/-- C5, as stated, fails: on a resource whose last line is unterminated the content after
`Block` is neither the existing content followed at once by the region nor the existing
content, a newline and the region. -/
theorem C5_counterexample :
    Block ["example.com".toList] ⟨"127.0.0.1 localhost".toList, true, true⟩
      = (none, ⟨"127.0.0.1 localhost\n\n# BEGIN SELFCONTROL-TUI\n127.0.0.1 example.com\n::1 example.com\n127.0.0.1 www.example.com\n::1 www.example.com\n# END SELFCONTROL-TUI\n".toList,
          true, true⟩) ∧
    (Block ["example.com".toList] ⟨"127.0.0.1 localhost".toList, true, true⟩).2.content
      ≠ "127.0.0.1 localhost".toList ++ specRegion (expandWildcards ["example.com".toList]) ∧
    (Block ["example.com".toList] ⟨"127.0.0.1 localhost".toList, true, true⟩).2.content
      ≠ "127.0.0.1 localhost".toList ++ ['\n']
          ++ specRegion (expandWildcards ["example.com".toList]) := by
  decide

/-- C5, amended: on a readable and writable resource whose lines fit the scanner and none
of which is a marker line, `Block` succeeds and the resource then holds the existing lines,
each followed by a newline, then an empty line, then the region of the specification for
the expansion of the patterns, and nothing else; the existing lines so written are the
existing content itself when it is empty or ends with a newline and no line ends in a
carriage return; the entries for `example.com` are the four listed ones. -/
theorem C5_block_appends_region :
    (∀ (f : HostsFile) (P : List GoString), f.readable = true → f.writable = true →
      (∀ l ∈ rawLines f.content, fits l = true) →
      (∀ l ∈ Scanner.tokens f.content, TrimSpace l ≠ beginMarker ∧ TrimSpace l ≠ endMarker) →
      Block P f = (none, { f with
        content := joinLines (Scanner.tokens f.content) ++ ['\n']
          ++ specRegion (expandWildcards P) })) ∧
    (∀ (f : HostsFile), (f.content = [] ∨ f.content.getLast? = some '\n') →
      (∀ l ∈ rawLines f.content, fits l = true) →
      (∀ l ∈ rawLines f.content, l.getLast? ≠ some '\r') →
      joinLines (Scanner.tokens f.content) = f.content) ∧
    specRegion (expandWildcards ["example.com".toList]) =
      "# BEGIN SELFCONTROL-TUI\n127.0.0.1 example.com\n::1 example.com\n127.0.0.1 www.example.com\n::1 www.example.com\n# END SELFCONTROL-TUI\n".toList := by
  refine ⟨?_, ?_, by decide⟩
  · intro f P hr hw hf hm
    have hnm : ∀ l ∈ (rawLines f.content).map dropCR, ¬ isMarker l := fun l hl hx => by
      rw [← tokens_of_fits _ hf] at hl
      rcases hx with hx | hx
      · exact (hm l hl).1 hx
      · exact (hm l hl).2 hx
    have hu := unblock_ok f hr hw hf
    rw [keptLines_of_no_marker _ hnm] at hu
    rw [block_of_unblock P f _ hu, blockingRules_eq_specRegion, tokens_of_fits _ hf]
    simp
  · intro f hend hf hcr
    have hmap := map_dropCR_of_no_cr _ hcr
    rw [tokens_of_fits _ hf, hmap, joinLines_rawLines _ hend]

/-- Witness for C5 on a one-line resource. -/
theorem C5_block_appends_region_witness :
    Block ["example.com".toList] ⟨"127.0.0.1 localhost\n".toList, true, true⟩
      = (none, ⟨"127.0.0.1 localhost\n\n# BEGIN SELFCONTROL-TUI\n127.0.0.1 example.com\n::1 example.com\n127.0.0.1 www.example.com\n::1 www.example.com\n# END SELFCONTROL-TUI\n".toList,
          true, true⟩) ∧
    joinLines (Scanner.tokens "127.0.0.1 localhost\n".toList) = "127.0.0.1 localhost\n".toList :=
  ⟨(C5_block_appends_region.1 ⟨"127.0.0.1 localhost\n".toList, true, true⟩
      ["example.com".toList] rfl rfl (by decide) (by decide)).trans (by decide),
   C5_block_appends_region.2.1 ⟨"127.0.0.1 localhost\n".toList, true, true⟩
      (by decide) (by decide) (by decide)⟩

/-- C6 fails on the code: a second `Block` with the same patterns succeeds but leaves one
more empty line before the region than the first did, so the resource grows with every
call. -/
theorem C6_block_twice_differs :
    Block ["example.com".toList] ⟨"127.0.0.1 localhost\n".toList, true, true⟩
      = (none, ⟨"127.0.0.1 localhost\n\n# BEGIN SELFCONTROL-TUI\n127.0.0.1 example.com\n::1 example.com\n127.0.0.1 www.example.com\n::1 www.example.com\n# END SELFCONTROL-TUI\n".toList,
          true, true⟩) ∧
    Block ["example.com".toList]
        (Block ["example.com".toList] ⟨"127.0.0.1 localhost\n".toList, true, true⟩).2
      = (none, ⟨"127.0.0.1 localhost\n\n\n# BEGIN SELFCONTROL-TUI\n127.0.0.1 example.com\n::1 example.com\n127.0.0.1 www.example.com\n::1 www.example.com\n# END SELFCONTROL-TUI\n".toList,
          true, true⟩) := by
  decide

/-- C7: a pattern whose cleaned form `p` (leading `http://`, then leading `https://`
stripped, white space trimmed) has no `*` expands to `[p, "www." ++ p]` when `p` does not
start with `www.`, and to `[p]` when it does. -/
theorem C7_expand_plain (url : GoString) (h : '*' ∉ cleanURL url) :
    (¬ "www.".toList <+: cleanURL url →
        expandWildcards [url] = [cleanURL url, "www.".toList ++ cleanURL url]) ∧
    ("www.".toList <+: cleanURL url → expandWildcards [url] = [cleanURL url]) := by
  have hc : Contains (cleanURL url) "*".toList = false := by
    rw [← Bool.not_eq_true]
    intro hc
    exact h ((contains_singleton '*' _).mp hc)
  rw [expandWildcards_single]
  unfold expandURL
  simp only [hc, Bool.false_eq_true, if_false]
  constructor
  · intro hw
    have : HasPrefix (cleanURL url) "www.".toList = false := by
      rw [← Bool.not_eq_true, hasPrefix_iff]
      exact hw
    simp only [this, Bool.not_false, if_true]
  · intro hw
    have : HasPrefix (cleanURL url) "www.".toList = true := (hasPrefix_iff _ _).mpr hw
    simp only [this, Bool.not_true, Bool.false_eq_true, if_false]

/-- Witness for C7 at `https://example.com ` and at `www.example.com`. -/
theorem C7_expand_plain_witness :
    expandWildcards ["https://example.com ".toList]
        = ["example.com".toList, "www.example.com".toList] ∧
    expandWildcards ["www.example.com".toList] = ["www.example.com".toList] :=
  ⟨(C7_expand_plain "https://example.com ".toList (by decide)).1 (by decide),
   (C7_expand_plain "www.example.com".toList (by decide)).2 (by decide)⟩

/-- C8: a pattern whose cleaned form `u` contains `*` expands as the specification
describes (`specWildcard`), and `*.linkedin.*` expands to exactly the seventeen listed
hostnames. -/
theorem C8_expand_wildcard :
    (∀ url : GoString, '*' ∈ cleanURL url →
        expandWildcards [url] = specWildcard (cleanURL url)) ∧
    expandWildcards ["*.linkedin.*".toList] =
      ["linkedin", "www.linkedin", "m.linkedin", "mobile.linkedin", "app.linkedin",
        "api.linkedin", "mail.linkedin", "login.linkedin", "account.linkedin",
        "linkedin.com", "www.linkedin.com", "linkedin.net", "www.linkedin.net",
        "linkedin.org", "www.linkedin.org", "linkedin.io", "www.linkedin.io"].map
        String.toList := by
  refine ⟨?_, by decide⟩
  intro url h
  have hc : Contains (cleanURL url) "*".toList = true := (contains_singleton '*' _).mpr h
  rw [expandWildcards_single]
  unfold expandURL specWildcard
  simp only [hc, if_true, replaceAll_star, trimSuffix_trim_dot]
  by_cases hb : Trim ((cleanURL url).filter (fun c => c != '*')) ".".toList = []
  · have hb2 : Trim ((cleanURL url).filter (fun c => c != '*')) ['.'] = [] := hb
    simp [hb, hb2]
  · have hb2 : ¬ Trim ((cleanURL url).filter (fun c => c != '*')) ['.'] = [] := hb
    rw [if_neg hb, if_neg hb2]
    by_cases h1 : (cleanURL url).head? = some '*'
    · have h1p : HasPrefix (cleanURL url) "*".toList = true := (hasPrefix_star _).mpr h1
      by_cases h2 : ".*".toList <:+ cleanURL url
      · have h2p : HasSuffix (cleanURL url) ".*".toList = true := (hasSuffix_iff _ _).mpr h2
        simp only [h1p, h2p, if_pos h1, if_pos h2, if_true]
        rfl
      · have h2p : HasSuffix (cleanURL url) ".*".toList = false := by
          rw [← Bool.not_eq_true, hasSuffix_iff]; exact h2
        simp only [h1p, h2p, if_pos h1, if_neg h2, if_true, Bool.false_eq_true, if_false]
        rfl
    · have h1p : HasPrefix (cleanURL url) "*".toList = false := by
        rw [← Bool.not_eq_true, hasPrefix_star]; exact h1
      by_cases h2 : ".*".toList <:+ cleanURL url
      · have h2p : HasSuffix (cleanURL url) ".*".toList = true := (hasSuffix_iff _ _).mpr h2
        simp only [h1p, h2p, if_neg h1, if_pos h2, if_true, Bool.false_eq_true, if_false]
        rfl
      · have h2p : HasSuffix (cleanURL url) ".*".toList = false := by
          rw [← Bool.not_eq_true, hasSuffix_iff]; exact h2
        simp only [h1p, h2p, if_neg h1, if_neg h2, Bool.false_eq_true, if_false]
        rfl

/-- Witness for C8 at `http://*.example.com`, `example.*` and `*`. -/
theorem C8_expand_wildcard_witness :
    expandWildcards ["http://*.example.com".toList] =
      ["example.com", "www.example.com", "m.example.com", "mobile.example.com",
        "app.example.com", "api.example.com", "mail.example.com", "login.example.com",
        "account.example.com"].map String.toList ∧
    expandWildcards ["example.*".toList] =
      ["example", "www.example", "example.com", "www.example.com", "example.net",
        "www.example.net", "example.org", "www.example.org", "example.io",
        "www.example.io"].map String.toList ∧
    expandWildcards ["*".toList] = [] :=
  ⟨(C8_expand_wildcard.1 "http://*.example.com".toList (by decide)).trans (by decide),
   (C8_expand_wildcard.1 "example.*".toList (by decide)).trans (by decide),
   (C8_expand_wildcard.1 "*".toList (by decide)).trans (by decide)⟩

/-- C9: `RemoveURLs` keeps exactly the entries whose zero-based position is not among the
given integers, in their original order, whatever the integers are (negative, too large or
repeated ones included); the session is untouched. -/
theorem C9_removeURLs (s : AppState) (indices : List Int) :
    (s.RemoveURLs indices).URLs =
        ((s.URLs.enum.filter (fun x => decide ((x.1 : Int) ∉ indices))).map Prod.snd) ∧
    (s.RemoveURLs indices).ActiveSession = s.ActiveSession := by
  refine ⟨?_, rfl⟩
  unfold RemoveURLs
  simp only [List.enum]
  exact removeLoop_eq indices s.URLs 0

/-- C10: `AddURL` leaves the state as it is when the pattern is already an entry, and
otherwise appends the pattern at the end; the session is the same in both cases. -/
theorem C10_addURL (s : AppState) (p : GoString) :
    (p ∈ s.URLs → s.AddURL p = s) ∧
    (p ∉ s.URLs →
      s.AddURL p = { URLs := s.URLs ++ [p], ActiveSession := s.ActiveSession }) := by
  constructor
  · intro h
    unfold AddURL
    rw [if_pos ((addURLFound_iff p s.URLs).mpr h)]
  · intro h
    unfold AddURL
    have : ¬ addURLFound p s.URLs = true := fun e => h ((addURLFound_iff p s.URLs).mp e)
    rw [if_neg this]

/-- Witness for C10: an exact duplicate is not added, a pattern differing in case is. -/
theorem C10_addURL_witness :
    AddURL ⟨["a.com".toList, "b.com".toList], none⟩ "b.com".toList
        = ⟨["a.com".toList, "b.com".toList], none⟩ ∧
    AddURL ⟨["a.com".toList, "b.com".toList], none⟩ "B.com".toList
        = ⟨["a.com".toList, "b.com".toList, "B.com".toList], none⟩ :=
  ⟨(C10_addURL ⟨["a.com".toList, "b.com".toList], none⟩ "b.com".toList).1 (by decide),
   (C10_addURL ⟨["a.com".toList, "b.com".toList], none⟩ "B.com".toList).2 (by decide)⟩

/-- C11: `IsSessionActive` is true exactly when a session exists and the clock reading is
before its end; for an existing session it is false exactly when the clock reading is at or
past the end, so it is false at the instant of the end itself. -/
theorem C11_isSessionActive (s : AppState) (now : Time) :
    (s.IsSessionActive now = true ↔
      ∃ session, s.ActiveSession = some session ∧ now < session.EndTime) ∧
    (∀ session, s.ActiveSession = some session →
      (s.IsSessionActive now = false ↔ session.EndTime ≤ now)) ∧
    (∀ session, s.ActiveSession = some session → now = session.EndTime →
      s.IsSessionActive now = false) := by
  obtain ⟨urls, a⟩ := s
  cases a with
  | none => simp [IsSessionActive]
  | some x =>
    simp only [IsSessionActive, time.Before, decide_eq_true_eq, decide_eq_false_iff_not,
      Option.some.injEq, exists_eq_left', not_lt, forall_eq', true_and]
    intro h
    exact le_of_eq h.symm

/-- Witness for C11 on a session ending at 100: active at 99, not active at 100 and 101,
and never active without a session. -/
theorem C11_isSessionActive_witness :
    IsSessionActive ⟨[], some ⟨100, "5 minutes".toList, 40⟩⟩ 99 = true ∧
    IsSessionActive ⟨[], some ⟨100, "5 minutes".toList, 40⟩⟩ 100 = false ∧
    IsSessionActive ⟨[], some ⟨100, "5 minutes".toList, 40⟩⟩ 101 = false ∧
    IsSessionActive ⟨[], none⟩ 99 = false :=
  ⟨(C11_isSessionActive ⟨[], some ⟨100, "5 minutes".toList, 40⟩⟩ 99).1.mpr
      ⟨⟨100, "5 minutes".toList, 40⟩, rfl, by decide⟩,
   (C11_isSessionActive ⟨[], some ⟨100, "5 minutes".toList, 40⟩⟩ 100).2.2
      ⟨100, "5 minutes".toList, 40⟩ rfl rfl,
   ((C11_isSessionActive ⟨[], some ⟨100, "5 minutes".toList, 40⟩⟩ 101).2.1
      ⟨100, "5 minutes".toList, 40⟩ rfl).mpr (by decide),
   by
    have h := (C11_isSessionActive ⟨[], none⟩ 99).1
    cases hb : IsSessionActive ⟨[], none⟩ 99 with
    | false => rfl
    | true =>
      obtain ⟨x, hx, _⟩ := h.mp hb
      cases hx⟩

/-- C12, as stated, fails: the clock is read once for the activity test and once more for
the result, so a session active at the first reading can be at or past its end at the
second, and the result is then zero or negative; and the result of a session ending more
than the largest `Duration` ahead is that largest `Duration`, not the difference. -/
theorem C12_counterexample :
    IsSessionActive ⟨[], some ⟨1000, "5 minutes".toList, 0⟩⟩ 999 = true ∧
    TimeRemaining ⟨[], some ⟨1000, "5 minutes".toList, 0⟩⟩ 999 1055 = -55 ∧
    TimeRemaining ⟨[], some ⟨1000, "5 minutes".toList, 0⟩⟩ 999 1000 = 0 ∧
    IsSessionActive ⟨[], some ⟨10000000000000000000, "far".toList, 0⟩⟩ 0 = true ∧
    TimeRemaining ⟨[], some ⟨10000000000000000000, "far".toList, 0⟩⟩ 0 0
      = 9223372036854775807 := by
  decide

/-- C12, amended: with `now` the clock reading of the activity test and `now2` the reading
`time.Until` takes next, `TimeRemaining` returns zero when the session is not active at
`now`; when the session is active at both readings it returns the `Duration` from `now2`
to the session's end, which is the end minus `now2` whenever that fits a `Duration`, and
is strictly positive; and when both readings are the same instant the result is zero
exactly when `IsSessionActive` is false, and never negative. -/
theorem C12_timeRemaining (s : AppState) (now now2 : Time) :
    (s.IsSessionActive now = false → s.TimeRemaining now now2 = 0) ∧
    (∀ session, s.ActiveSession = some session → s.IsSessionActive now = true →
      s.IsSessionActive now2 = true →
      s.TimeRemaining now now2 = time.Sub session.EndTime now2 ∧
      (session.EndTime - now2 ≤ time.maxDuration →
        s.TimeRemaining now now2 = session.EndTime - now2) ∧
      (time.maxDuration < session.EndTime - now2 →
        s.TimeRemaining now now2 = time.maxDuration) ∧
      0 < s.TimeRemaining now now2) ∧
    (s.TimeRemaining now now = 0 ↔ s.IsSessionActive now = false) ∧
    0 ≤ s.TimeRemaining now now := by
  obtain ⟨urls, a⟩ := s
  cases a with
  | none => simp [TimeRemaining, IsSessionActive]
  | some x =>
    have hact : ∀ t : Time, IsSessionActive ⟨urls, some x⟩ t = decide (t < x.EndTime) :=
      fun t => rfl
    by_cases h : now < x.EndTime
    · have ha : IsSessionActive ⟨urls, some x⟩ now = true := by
        rw [hact]; exact decide_eq_true h
      have hr : ∀ t : Time,
          TimeRemaining ⟨urls, some x⟩ now t = time.Sub x.EndTime t := by
        intro t
        simp [TimeRemaining, ha, time.Until]
      have hpos : 0 < time.Sub x.EndTime now := (timeSub_pos _ _).mpr h
      refine ⟨?_, ?_, ?_, ?_⟩
      · intro hf
        rw [ha] at hf
        cases hf
      · intro session hs _ ha2
        cases hs
        rw [hact] at ha2
        have h2 : now2 < x.EndTime := of_decide_eq_true ha2
        have hmin : time.minDuration ≤ x.EndTime - now2 :=
          le_trans (by decide) (le_of_lt (sub_pos.mpr h2))
        refine ⟨hr now2, fun hmax => (hr now2).trans (timeSub_exact _ _ hmin hmax), ?_, ?_⟩
        · intro hbig
          rw [hr]
          unfold time.Sub
          rw [if_pos hbig]
        · rw [hr]
          exact (timeSub_pos _ _).mpr h2
      · rw [hr, ha]
        constructor
        · intro h0
          rw [h0] at hpos
          exact absurd hpos (lt_irrefl _)
        · intro hf
          cases hf
      · rw [hr]
        exact le_of_lt hpos
    · have ha : IsSessionActive ⟨urls, some x⟩ now = false := by
        rw [hact]; exact decide_eq_false h
      have hr : ∀ t : Time, TimeRemaining ⟨urls, some x⟩ now t = 0 := by
        intro t
        simp [TimeRemaining, ha]
      refine ⟨?_, ?_, ?_, ?_⟩
      · intro _
        exact hr now2
      · intro session _ hf
        rw [ha] at hf
        cases hf
      · rw [hr, ha]
        simp
      · rw [hr]

/-- Witness for C12 on a session ending at 100: read at 60 and then 61 it has 39 left, read
at 100 or later it has nothing left, and nothing is left without a session. -/
theorem C12_timeRemaining_witness :
    TimeRemaining ⟨[], some ⟨100, "5 minutes".toList, 40⟩⟩ 60 61 = 39 ∧
    0 < TimeRemaining ⟨[], some ⟨100, "5 minutes".toList, 40⟩⟩ 60 61 ∧
    TimeRemaining ⟨[], some ⟨100, "5 minutes".toList, 40⟩⟩ 100 101 = 0 ∧
    TimeRemaining ⟨[], none⟩ 60 61 = 0 :=
  ⟨((C12_timeRemaining ⟨[], some ⟨100, "5 minutes".toList, 40⟩⟩ 60 61).2.1
      ⟨100, "5 minutes".toList, 40⟩ rfl (by decide) (by decide)).2.1 (by decide),
   ((C12_timeRemaining ⟨[], some ⟨100, "5 minutes".toList, 40⟩⟩ 60 61).2.1
      ⟨100, "5 minutes".toList, 40⟩ rfl (by decide) (by decide)).2.2.2,
   (C12_timeRemaining ⟨[], some ⟨100, "5 minutes".toList, 40⟩⟩ 100 101).1 (by decide),
   (C12_timeRemaining ⟨[], none⟩ 60 61).1 (by decide)⟩

/-- C13, as stated, fails: the end is computed from a second clock reading, so it is not
the stored start plus the duration; and `StartSession` takes any duration, so with a
negative one the session ends before it starts. -/
theorem C13_counterexample :
    StartSession ⟨[], none⟩ (5 * time.Minute) "5 minutes".toList 1000 1048
      = ⟨[], some ⟨300000001048, "5 minutes".toList, 1000⟩⟩ ∧
    (300000001048 : Time) ≠ 1000 + 5 * time.Minute ∧
    StartSession ⟨[], none⟩ (-5 * time.Minute) "back".toList 1000 1048
      = ⟨[], some ⟨-299999998952, "back".toList, 1000⟩⟩ ∧
    ¬ Session.valid ⟨-299999998952, "back".toList, 1000⟩ := by
  decide

/-- C13, amended: with `now` the clock reading stored as the start and `now2` the reading
taken next, `StartSession` produces a session that starts at `now`, ends at `now2` plus the
duration and carries the label, replacing any previous session and leaving the block list
as it was; the session ends after it starts exactly when the duration exceeds `now` minus
`now2`, so whenever the duration is positive, as each of the seven predefined durations
is, and the clock has not stepped back between the two readings. -/
theorem C13_startSession :
    (∀ (s : AppState) (duration : time.Duration) (label : GoString) (now now2 : Time),
      s.StartSession duration label now now2 =
          { URLs := s.URLs,
            ActiveSession :=
              some { StartTime := now, EndTime := now2 + duration, Duration := label } } ∧
      (∀ session, (s.StartSession duration label now now2).ActiveSession = some session →
        (session.valid ↔ now - now2 < duration)) ∧
      (0 < duration → now ≤ now2 →
        ∀ session, (s.StartSession duration label now now2).ActiveSession = some session →
          session.valid)) ∧
    (∀ d ∈ timer.PredefinedDurations, 0 < d.Duration) := by
  refine ⟨?_, by decide⟩
  intro s duration label now now2
  have key : ∀ session,
      (s.StartSession duration label now now2).ActiveSession = some session →
        (session.valid ↔ now - now2 < duration) := by
    intro session hs
    simp only [StartSession, time.Add, Option.some.injEq] at hs
    rw [← hs]
    unfold Session.valid
    exact sub_lt_iff_lt_add'.symm
  refine ⟨rfl, key, ?_⟩
  intro hd hle session hs
  refine (key session hs).mpr ?_
  exact lt_of_le_of_lt (sub_nonpos.mpr hle) hd

/-- Witness for C13: a five-minute session started at 1000, the end read at 1048, over an
older session. -/
theorem C13_startSession_witness :
    StartSession ⟨["example.com".toList], some ⟨7, "old".toList, 3⟩⟩ (5 * time.Minute)
        "5 minutes".toList 1000 1048
      = ⟨["example.com".toList], some ⟨300000001048, "5 minutes".toList, 1000⟩⟩ ∧
    Session.valid ⟨300000001048, "5 minutes".toList, 1000⟩ :=
  ⟨((C13_startSession.1 ⟨["example.com".toList], some ⟨7, "old".toList, 3⟩⟩ (5 * time.Minute)
      "5 minutes".toList 1000 1048).1).trans (by decide),
   (C13_startSession.1 ⟨["example.com".toList], some ⟨7, "old".toList, 3⟩⟩ (5 * time.Minute)
      "5 minutes".toList 1000 1048).2.2 (by decide) (by decide)
      ⟨300000001048, "5 minutes".toList, 1000⟩ (by decide)⟩

/-- C14: in one tick of the enforcement loop on a state that loaded, the state is saved,
with its session cleared, exactly when a session exists, is not active at the clock
reading and `Unblock` succeeded, and nothing else is ever saved; when `Unblock` fails
nothing is saved, the persisted record keeps its session and the world is as before; when
the session is absent or still active the tick does nothing at all; when a session exists,
is not active and `Unblock` succeeds, the hosts file is the one `Unblock` leaves, free of
marker lines, and the store is the one `Save` of the state without its session leaves,
which loads as that state when the state file can be written; so the persisted record
changes only after a successful `Unblock`. -/
theorem C14_daemon_tick (w : World) (now : Time) (st : AppState)
    (hload : state.Load w.store = Except.ok st) :
    ((∃ err, Event.save st.EndSession err ∈ (daemon.tick w now).2) ↔
      (st.ActiveSession ≠ none ∧ st.IsSessionActive now = false ∧
        (Unblock w.hosts).1 = none)) ∧
    (∀ st1 err, Event.save st1 err ∈ (daemon.tick w now).2 →
      st1 = st.EndSession ∧ st1.ActiveSession = none) ∧
    ((Unblock w.hosts).1 ≠ none →
      (daemon.tick w now).1.store = w.store ∧
      ∀ st1 err, Event.save st1 err ∉ (daemon.tick w now).2) ∧
    ((st.ActiveSession = none ∨ st.IsSessionActive now = true) →
      daemon.tick w now = (w, [])) ∧
    ((daemon.tick w now).1.store ≠ w.store →
      (Unblock w.hosts).1 = none ∧ (daemon.tick w now).1.hosts = (Unblock w.hosts).2 ∧
      (daemon.tick w now).1.store.file = StateFile.record st.EndSession ∧
      ∀ l ∈ rawLines (daemon.tick w now).1.hosts.content, ¬ isMarker l) ∧
    (st.ActiveSession ≠ none → st.IsSessionActive now = false →
      (Unblock w.hosts).1 = none →
      (daemon.tick w now).1 =
          { hosts := (Unblock w.hosts).2, store := (state.Save st.EndSession w.store).2 } ∧
      st.EndSession.ActiveSession = none ∧
      (∀ l ∈ rawLines (daemon.tick w now).1.hosts.content, ¬ isMarker l) ∧
      (w.store.writable = true →
        state.Load (daemon.tick w now).1.store = Except.ok st.EndSession)) ∧
    ((Unblock w.hosts).1 ≠ none → (daemon.tick w now).1 = w) := by
  obtain ⟨e1, e2, e3, e4, e5⟩ := tick_events w now st hload
  obtain ⟨w1, w2⟩ := tick_world w now st hload
  refine ⟨e1, e2, e3, e4, e5, ?_, w2⟩
  intro hs ha hu
  have hw := w1 hs ha hu
  refine ⟨hw, rfl, ?_, ?_⟩
  · rw [hw]
    exact unblock_none_no_marker w.hosts (Unblock w.hosts).2 (Prod.ext hu rfl)
  · intro hwr
    rw [hw]
    exact load_after_save st st.EndSession w.store hload rfl hwr

/-- Witness for C14 on the example world: with a writable hosts file the tick saves the
state with its session cleared and leaves the hosts file without the region and the record
without the session; with a hosts file that cannot be written nothing is saved and the
world is as before. -/
theorem C14_daemon_tick_witness :
    (∃ err, Event.save ⟨["example.com".toList], none⟩ err
        ∈ (daemon.tick (expiredWorld true) expiredNow).2) ∧
    (daemon.tick (expiredWorld true) expiredNow).1
      = { hosts := ⟨"127.0.0.1 localhost\n\n".toList, true, true⟩,
          store := ⟨true, StateFile.record ⟨["example.com".toList], none⟩, true⟩ } ∧
    (daemon.tick (expiredWorld false) expiredNow).1 = expiredWorld false ∧
    (∀ st1 err, Event.save st1 err ∉ (daemon.tick (expiredWorld false) expiredNow).2) :=
  ⟨(C14_daemon_tick (expiredWorld true) expiredNow
      ⟨["example.com".toList], some ⟨300000001000, "5 minutes".toList, 1000⟩⟩ rfl).1.mpr
      ⟨by decide, by decide, by decide⟩,
   ((C14_daemon_tick (expiredWorld true) expiredNow
      ⟨["example.com".toList], some ⟨300000001000, "5 minutes".toList, 1000⟩⟩ rfl).2.2.2.2.2.1
      (by decide) (by decide) (by decide)).1.trans (by decide),
   (C14_daemon_tick (expiredWorld false) expiredNow
      ⟨["example.com".toList], some ⟨300000001000, "5 minutes".toList, 1000⟩⟩ rfl).2.2.2.2.2.2
      (by decide),
   ((C14_daemon_tick (expiredWorld false) expiredNow
      ⟨["example.com".toList], some ⟨300000001000, "5 minutes".toList, 1000⟩⟩ rfl).2.2.1
      (by decide)).2⟩

/-- C15 fails on the code in `New`: started on the example world with a hosts file that
cannot be written, `Unblock` fails, the region stays in the hosts file, and `New` clears
the session all the same and saves the record without it; the tick path of `Update`, on
the same world, keeps the session and saves nothing. -/
theorem C15_new_clears_after_failed_unblock :
    Unblock (expiredWorld false).hosts = (some Error.writeHosts, (expiredWorld false).hosts) ∧
    (ui.New (expiredWorld false) expiredNow).2.1.hosts = (expiredWorld false).hosts ∧
    IsBlocked (ui.New (expiredWorld false) expiredNow).2.1.hosts = (true, none) ∧
    (ui.New (expiredWorld false) expiredNow).2.1.store.file
      = StateFile.record ⟨["example.com".toList], none⟩ ∧
    (ui.New (expiredWorld false) expiredNow).2.2
      = [Event.unblock (some Error.writeHosts),
          Event.save ⟨["example.com".toList], none⟩ none] ∧
    (ui.UpdateTick
        { state := ⟨["example.com".toList], some ⟨300000001000, "5 minutes".toList, 1000⟩⟩,
          mode := ui.viewMode.viewMain, cursor := 0, deleteSelected := [], err := none,
          quitting := false, lastTickTime := 309000001000, permissionError := false }
        expiredNow (expiredWorld false) expiredNow).2
      = (expiredWorld false, [Event.unblock (some Error.writeHosts)]) := by
  decide

/-- C16, as stated, fails: a line that contains the begin marker text without being a
marker line is written back by `Unblock`, and `IsBlocked` finds the text in it. -/
theorem C16_counterexample :
    Unblock ⟨"# BEGIN SELFCONTROL-TUI v2\n127.0.0.1 localhost\n".toList, true, true⟩
      = (none, ⟨"# BEGIN SELFCONTROL-TUI v2\n127.0.0.1 localhost\n".toList, true, true⟩) ∧
    IsBlocked ⟨"# BEGIN SELFCONTROL-TUI v2\n127.0.0.1 localhost\n".toList, true, true⟩
      = (true, none) := by
  decide

/-- C16, amended: when no line of the resource other than a marker line contains the begin
marker text, `IsBlocked` on the resource left by a successful `Unblock` returns false; and
`IsBlocked` on the resource left by a successful `Block` returns true. -/
theorem C16_isBlocked :
    (∀ f f1 : HostsFile, Unblock f = (none, f1) →
      (∀ l ∈ Scanner.tokens f.content, ¬ isMarker l → ¬ beginMarker <:+: l) →
      IsBlocked f1 = (false, none)) ∧
    (∀ (P : List GoString) (f f1 : HostsFile), Block P f = (none, f1) →
      IsBlocked f1 = (true, none)) := by
  constructor
  · intro f f1 hU hl
    obtain ⟨hr, hw, hf⟩ := unblock_none f f1 hU
    have h1 := unblock_ok f hr hw hf
    rw [hU] at h1
    have hf1 := (Prod.mk.inj h1).2
    have hsub := keptLines_sublist false ((rawLines f.content).map dropCR)
    have hnm := keptLines_not_marker false ((rawLines f.content).map dropCR)
    generalize keptLines false ((rawLines f.content).map dropCR) = K at hf1 hsub hnm
    rw [← tokens_of_fits _ hf] at hsub
    have hc : Contains (joinLines K) beginMarker = false := by
      rw [← Bool.not_eq_true, contains_iff]
      intro hin
      obtain ⟨l, hlK, hl2⟩ := infix_joinLines beginMarker K (by decide) (by decide) hin
      exact hl l (hsub.subset hlK) (hnm l hlK) hl2
    rw [hf1]
    unfold IsBlocked
    simp only [hr, hc, Bool.not_true, Bool.false_eq_true, if_false]
  · intro P f f1 hB
    obtain ⟨hr, c, hc⟩ := block_none P f f1 hB
    have hin : Contains f1.content beginMarker = true := by
      rw [contains_iff, hc]
      unfold blockingRules
      exact ⟨c ++ ['\n'], ['\n'] ++ rulesLoop (expandWildcards P) ++ endMarker ++ ['\n'],
        by simp⟩
    unfold IsBlocked
    simp only [hr, hin, Bool.not_true, Bool.false_eq_true, if_false]

/-- Witness for C16 on the hosts file of the example world, and on a one-line resource
after `Block`. -/
theorem C16_isBlocked_witness :
    IsBlocked (Unblock (expiredWorld true).hosts).2 = (false, none) ∧
    IsBlocked (Block ["example.com".toList] ⟨"127.0.0.1 localhost\n".toList, true, true⟩).2
      = (true, none) :=
  ⟨C16_isBlocked.1 (expiredWorld true).hosts (Unblock (expiredWorld true).hosts).2
      (by decide) (by decide),
   C16_isBlocked.2 ["example.com".toList] ⟨"127.0.0.1 localhost\n".toList, true, true⟩
      (Block ["example.com".toList] ⟨"127.0.0.1 localhost\n".toList, true, true⟩).2
      (by decide)⟩

/-- C17, as stated, fails: when the resource cannot be written, or holds a line too long
for the scanner, `Unblock` returns an error and drops nothing, so a begin marker line
without end and the lines after it stay in the resource. -/
theorem C17_counterexample :
    Unblock ⟨"a\n# BEGIN SELFCONTROL-TUI\nb\n".toList, true, false⟩
      = (some Error.writeHosts, ⟨"a\n# BEGIN SELFCONTROL-TUI\nb\n".toList, true, false⟩) ∧
    Unblock ⟨List.replicate 65536 'a' ++ '\n' :: "# BEGIN SELFCONTROL-TUI\nb\n".toList, true, true⟩
      = (some Error.readHosts,
          ⟨List.replicate 65536 'a' ++ '\n' :: "# BEGIN SELFCONTROL-TUI\nb\n".toList,
            true, true⟩) :=
  ⟨by decide, unblock_long_line 65536 (by decide) "# BEGIN SELFCONTROL-TUI\nb\n".toList true⟩

/-- C17, amended: on a readable and writable resource whose lines fit the scanner, `Unblock` writes
for a begin marker line that no end marker line follows only what it writes for the lines
before it; for an end marker line met while no region is open what it writes for the other
lines; and for a second begin marker line inside an open region what it writes for the
lines before the region and for the lines after the first end marker line that follows;
lines without a marker among them are written one by one, each followed by a newline. -/
theorem C17_unbalanced_markers :
    (∀ (f : HostsFile) (pre post : List GoString) (b : GoString),
      f.readable = true → f.writable = true → (∀ l ∈ rawLines f.content, fits l = true) →
      Scanner.tokens f.content = pre ++ b :: post → TrimSpace b = beginMarker →
      (∀ l ∈ post, TrimSpace l ≠ endMarker) →
      Unblock f = (none, { f with content := unblockLoop false pre })) ∧
    (∀ (f : HostsFile) (pre post : List GoString) (e : GoString),
      f.readable = true → f.writable = true → (∀ l ∈ rawLines f.content, fits l = true) →
      Scanner.tokens f.content = pre ++ e :: post → TrimSpace e = endMarker →
      regionOpen pre = false →
      Unblock f = (none, { f with content := unblockLoop false (pre ++ post) })) ∧
    (∀ (f : HostsFile) (pre mid1 mid2 post : List GoString) (b1 b2 e : GoString),
      f.readable = true → f.writable = true → (∀ l ∈ rawLines f.content, fits l = true) →
      Scanner.tokens f.content = pre ++ b1 :: (mid1 ++ b2 :: (mid2 ++ e :: post)) →
      TrimSpace b1 = beginMarker → TrimSpace b2 = beginMarker → TrimSpace e = endMarker →
      (∀ l ∈ mid1, TrimSpace l ≠ endMarker) → (∀ l ∈ mid2, TrimSpace l ≠ endMarker) →
      Unblock f = (none, { f with content := unblockLoop false pre ++ unblockLoop false post })) ∧
    (∀ ls : List GoString, (∀ l ∈ ls, ¬ isMarker l) → unblockLoop false ls = joinLines ls) := by
  refine ⟨?_, ?_, ?_, ?_⟩
  · intro f pre post b hr hw hf htok hb hpost
    rw [unblock_ok f hr hw hf, ← tokens_of_fits _ hf, htok, keptLines_append,
      keptLines_begin _ b post hb, keptLines_true_no_end post hpost, List.append_nil,
      unblockLoop_eq]
  · intro f pre post e hr hw hf htok he hopen
    rw [unblock_ok f hr hw hf, ← tokens_of_fits _ hf, htok, keptLines_append,
      keptLines_end _ e post he, unblockLoop_eq, keptLines_append, scanState_false_eq, hopen]
  · intro f pre mid1 mid2 post b1 b2 e hr hw hf htok hb1 hb2 he hm1 hm2
    have hmid : ∀ l ∈ mid1 ++ b2 :: mid2, TrimSpace l ≠ endMarker := by
      intro l hl
      simp only [List.mem_append, List.mem_cons] at hl
      rcases hl with hl | hl | hl
      · exact hm1 l hl
      · rw [hl, hb2]; exact begin_ne_end
      · exact hm2 l hl
    have hshape : pre ++ b1 :: (mid1 ++ b2 :: (mid2 ++ e :: post))
        = pre ++ b1 :: ((mid1 ++ b2 :: mid2) ++ e :: post) := by simp
    rw [unblock_ok f hr hw hf, ← tokens_of_fits _ hf, htok, hshape, keptLines_append,
      keptLines_begin _ b1 _ hb1, keptLines_true_append_end _ post e hmid he,
      joinLines_append, unblockLoop_eq, unblockLoop_eq]
  · intro ls h
    rw [unblockLoop_eq, keptLines_of_no_marker ls h]

/-- Witness for C17: a begin marker line without end, a stray end marker line, and a second
begin marker line inside a region. -/
theorem C17_unbalanced_markers_witness :
    Unblock ⟨"a\n# BEGIN SELFCONTROL-TUI\nb\nc\n".toList, true, true⟩
      = (none, ⟨"a\n".toList, true, true⟩) ∧
    Unblock ⟨"a\n# END SELFCONTROL-TUI\nb\n".toList, true, true⟩
      = (none, ⟨"a\nb\n".toList, true, true⟩) ∧
    Unblock
        ⟨"a\n# BEGIN SELFCONTROL-TUI\nx\n# BEGIN SELFCONTROL-TUI\ny\n# END SELFCONTROL-TUI\nb\n".toList,
          true, true⟩
      = (none, ⟨"a\nb\n".toList, true, true⟩) :=
  ⟨(C17_unbalanced_markers.1 ⟨"a\n# BEGIN SELFCONTROL-TUI\nb\nc\n".toList, true, true⟩
      ["a".toList] ["b".toList, "c".toList] "# BEGIN SELFCONTROL-TUI".toList
      rfl rfl (by decide) (by decide) (by decide) (by decide)).trans (by decide),
   (C17_unbalanced_markers.2.1 ⟨"a\n# END SELFCONTROL-TUI\nb\n".toList, true, true⟩
      ["a".toList] ["b".toList] "# END SELFCONTROL-TUI".toList
      rfl rfl (by decide) (by decide) (by decide) (by decide)).trans (by decide),
   (C17_unbalanced_markers.2.2.1
      ⟨"a\n# BEGIN SELFCONTROL-TUI\nx\n# BEGIN SELFCONTROL-TUI\ny\n# END SELFCONTROL-TUI\nb\n".toList,
        true, true⟩
      ["a".toList] ["x".toList] ["y".toList] ["b".toList] "# BEGIN SELFCONTROL-TUI".toList
      "# BEGIN SELFCONTROL-TUI".toList "# END SELFCONTROL-TUI".toList
      rfl rfl (by decide) (by decide) (by decide) (by decide) (by decide) (by decide)
      (by decide)).trans (by decide)⟩

end Claims

end SelfControl
